import Mathlib

/-!
# MetricsStore (server/priv/js/stores/MetricsStore.js)

A shallow embedding of the metrics store of the MZBench dashboard: the module level
record `data`, the private helpers `_clearData` .. `_convertDate`, and the methods of the
`MetricsStore` class that read or write `data`.

Conventions of the embedding.

* The mutable module variable `data` becomes a value of type `Data` that every operation
  takes and returns.
* JavaScript strings that are only compared (metric names, session guids) are `String`;
  the raw text handed to `updateMetricData` is a `String` whose characters are scanned as
  a `List Char`.
* `Misc.gen_guid()` lives outside this file of the repository; the guid it returns is an
  argument of `resetSubscriptions`.
* A guid is a string or `undefined` (`Option String`); on such values the operator `==` of
  `updateMetricData` and `metricsBatchFinished` is equality.
* The `Map` is the list of its entries in insertion order, read and written through
  `SeriesTable.get`, `SeriesTable.has` and `SeriesTable.set` only.
* A JavaScript `TypeError` is the `Except.error` result.
* Numbers.  `Number.parseInt` only returns `NaN`, an infinity or an integer valued double,
  and the store only subtracts such numbers, so dates are values of `JSInt`, with the
  rounding of IEEE 754 doubles written out (`roundNat53`).  The result of
  `Number.parseFloat` is only stored and handed back, never computed with, so a finite
  value is kept as the decimal literal that was read (`JSFloat.lit`), which stands for the
  double nearest to it.  The sign of a zero is not recorded.
-/

namespace MetricsStore

/-! ## Numbers -/

/-- The numbers that `Number.parseInt` returns and their differences: `NaN`, an infinity
(`neg` tells the sign), or a double whose value is the integer `n`. -/
inductive JSInt where
  | nan : JSInt
  | inf (neg : Bool) : JSInt
  | fin (n : Int) : JSInt
  deriving DecidableEq

/-- The numbers that `Number.parseFloat` returns: `NaN`, an infinity, or the Number value
of the decimal literal `(-1)^neg * mant * 10^exp`. -/
inductive JSFloat where
  | nan : JSFloat
  | inf (neg : Bool) : JSFloat
  | lit (neg : Bool) (mant : Nat) (exp : Int) : JSFloat
  deriving DecidableEq

/-- The number of binary digits of `n` after at most `fuel` halvings. -/
def bitLengthAux : Nat → Nat → Nat
  | 0, _ => 0
  | fuel + 1, n => if n = 0 then 0 else bitLengthAux fuel (n / 2) + 1

/-- The number of binary digits of `n` (zero for `0`). -/
def bitLength (n : Nat) : Nat := bitLengthAux n n

/-- Round a natural number to 53 significant bits, ties to even: the magnitude of the
double nearest to `n` (before the overflow test). -/
def roundNat53 (n : Nat) : Nat :=
  let bits := bitLength n
  if bits ≤ 53 then n
  else
    let sh := bits - 53
    let q := n / 2 ^ sh
    let r := n % 2 ^ sh
    let half := 2 ^ (sh - 1)
    let q1 := if half < r ∨ (r = half ∧ q % 2 = 1) then q + 1 else q
    q1 * 2 ^ sh

/-- The Number value of a mathematical integer: round to nearest, ties to even; a result
of magnitude `2^1024` or more (one of 1025 bits or more) is an infinity. -/
def JSInt.ofInt (z : Int) : JSInt :=
  let m := roundNat53 z.natAbs
  if 1024 < bitLength m then JSInt.inf (decide (z < 0))
  else JSInt.fin (if z < 0 then -(m : Int) else (m : Int))

/-- The test `Number.isNaN` on a date. -/
def JSInt.isNaN : JSInt → Bool
  | JSInt.nan => true
  | _ => false

/-- The test `Number.isNaN` on a value. -/
def JSFloat.isNaN : JSFloat → Bool
  | JSFloat.nan => true
  | _ => false

/-- Least magnitude that rounds to an infinity: `2^1024 - 2^970`, half way between the
largest double and `2^1024`. -/
def overflowThreshold : Nat := (2 ^ 54 - 1) <<< 970

/-- Whether the Number a value stands for is finite (`Number.isFinite`): a literal is
finite unless its magnitude reaches `overflowThreshold`. -/
def JSFloat.isFinite : JSFloat → Bool
  | JSFloat.lit _ mant exp =>
    if 0 ≤ exp then decide (mant * 10 ^ exp.toNat < overflowThreshold)
    else decide (mant < overflowThreshold * 10 ^ (-exp).toNat)
  | _ => false

/-- The mathematical value of a literal (zero for `NaN` and the infinities). -/
def JSFloat.toRat : JSFloat → ℚ
  | JSFloat.lit neg mant exp => (if neg then -1 else 1) * (mant : ℚ) * (10 : ℚ) ^ exp
  | _ => 0

/-- The operator `-` on two dates (IEEE 754 subtraction of integer valued doubles). -/
def JSInt.sub : JSInt → JSInt → JSInt
  | JSInt.nan, _ => JSInt.nan
  | _, JSInt.nan => JSInt.nan
  | JSInt.inf a, JSInt.inf b => if a = b then JSInt.nan else JSInt.inf a
  | JSInt.inf a, JSInt.fin _ => JSInt.inf a
  | JSInt.fin _, JSInt.inf b => JSInt.inf (!b)
  | JSInt.fin a, JSInt.fin b => JSInt.ofInt (a - b)

/-- The operator `!` on `data.starting_date`: `undefined`, `NaN` and zero are falsy. -/
def isFalsy : Option JSInt → Bool
  | none => true
  | some JSInt.nan => true
  | some (JSInt.fin n) => decide (n = 0)
  | some (JSInt.inf _) => false

/-! ## Text: `split`, `Number.parseInt`, `Number.parseFloat` -/

/-- The method `String.prototype.split` with a separator of one character: the pieces
between the occurrences of `sep`; the empty text gives one empty piece. -/
def split (sep : Char) : List Char → List (List Char)
  | [] => [[]]
  | c :: cs =>
    if c = sep then [] :: split sep cs
    else
      match split sep cs with
      | [] => [[c]]
      | f :: fs => (c :: f) :: fs

/-- The characters skipped before a number (`StrWhiteSpaceChar`): white space and line
terminators of ECMAScript. -/
def isStrWhiteSpaceChar (c : Char) : Bool :=
  let n := c.toNat
  n = 0x09 || n = 0x0A || n = 0x0B || n = 0x0C || n = 0x0D || n = 0x20 || n = 0xA0 ||
  n = 0x1680 || (0x2000 ≤ n && n ≤ 0x200A) || n = 0x2028 || n = 0x2029 || n = 0x202F ||
  n = 0x205F || n = 0x3000 || n = 0xFEFF

/-- The value of a character as a digit of the given radix (10 or 16), if it is one. -/
def digitValue (radix : Nat) (c : Char) : Option Nat :=
  let n := c.toNat
  if 48 ≤ n ∧ n ≤ 57 then some (n - 48)
  else if radix = 16 ∧ 97 ≤ n ∧ n ≤ 102 then some (n - 87)
  else if radix = 16 ∧ 65 ≤ n ∧ n ≤ 70 then some (n - 55)
  else none

/-- Whether a character is a digit of the given radix. -/
def isRadixDigit (radix : Nat) (c : Char) : Bool := (digitValue radix c).isSome

/-- The integer that a list of digits of the given radix writes. -/
def digitsValue (radix : Nat) (ds : List Char) : Nat :=
  ds.foldl (fun acc c => acc * radix + (digitValue radix c).getD 0) 0

/-- Remove one leading sign: the flag tells whether it was `-`. -/
def takeSign : List Char → Bool × List Char
  | '-' :: r => (true, r)
  | '+' :: r => (false, r)
  | s => (false, s)

/-- Remove a leading `0x` or `0X`: the radix is then 16, else 10. -/
def takeRadix : List Char → Nat × List Char
  | '0' :: 'x' :: r => (16, r)
  | '0' :: 'X' :: r => (16, r)
  | s => (10, s)

/-- The function `Number.parseInt(string)` with no radix argument: skip white space, read
a sign, read `0x`/`0X`, read the longest run of digits; `NaN` when that run is empty, else
the Number value of the signed integer. (ECMAScript lets an engine replace the decimal
digits after the 20th by zeros before rounding; the exact integer is rounded here.) -/
def parseInt (s : List Char) : JSInt :=
  let s1 := s.dropWhile isStrWhiteSpaceChar
  let (neg, s2) := takeSign s1
  let (radix, s3) := takeRadix s2
  let z := s3.takeWhile (isRadixDigit radix)
  if z.isEmpty then JSInt.nan
  else JSInt.ofInt (if neg then -(digitsValue radix z : Int) else (digitsValue radix z : Int))

/-- The exponent part of a decimal literal: `e` or `E`, an optional sign and at least one
digit; zero when the text does not start with a complete exponent part. -/
def takeExponent : List Char → Int
  | c :: r =>
    if c = 'e' ∨ c = 'E' then
      let (neg, r1) := takeSign r
      let ds := r1.takeWhile (isRadixDigit 10)
      if ds.isEmpty then 0
      else if neg then -(digitsValue 10 ds : Int) else (digitsValue 10 ds : Int)
    else 0
  | [] => 0

/-- The fraction part after the integer digits: the digits after a `.`, and the rest. -/
def takeFraction : List Char → List Char × List Char
  | '.' :: r => (r.takeWhile (isRadixDigit 10), r.dropWhile (isRadixDigit 10))
  | s => ([], s)

/-- The function `Number.parseFloat(string)`: skip white space, then read the longest
start of the text that is a `StrDecimalLiteral` (a sign, then `Infinity` or digits with an
optional fraction and exponent); `NaN` when there is none. -/
def parseFloat (s : List Char) : JSFloat :=
  let s1 := s.dropWhile isStrWhiteSpaceChar
  let (neg, s2) := takeSign s1
  if "Infinity".toList.isPrefixOf s2 then JSFloat.inf neg
  else
    let ip := s2.takeWhile (isRadixDigit 10)
    let (fp, r) := takeFraction (s2.dropWhile (isRadixDigit 10))
    if ip.isEmpty && fp.isEmpty then JSFloat.nan
    else JSFloat.lit neg (digitsValue 10 (ip ++ fp)) (takeExponent r - (fp.length : Int))

/-! ## The store -/

/-- An object with the keys `date` and `value`: the observation read from a line, and the
element stored in a series (there `date` is relative to `starting_date`). -/
structure Observation where
  date : JSInt
  value : JSFloat
  deriving DecidableEq

/-- The `Map` from metric name to its array of observations, in insertion order. -/
abbrev SeriesTable := List (String × List Observation)

/-- The method `Map.prototype.get`: `none` is `undefined`. -/
def SeriesTable.get : SeriesTable → String → Option (List Observation)
  | [], _ => none
  | (k, v) :: rest, key => if k = key then some v else SeriesTable.get rest key

/-- The method `Map.prototype.has`. -/
def SeriesTable.has (t : SeriesTable) (key : String) : Bool := (t.get key).isSome

/-- The method `Map.prototype.set`: replace the value of an existing key in place, else add
the key at the end. -/
def SeriesTable.set : SeriesTable → String → List Observation → SeriesTable
  | [], key, v => [(key, v)]
  | (k, v0) :: rest, key, v =>
    if k = key then (k, v) :: rest else (k, v0) :: SeriesTable.set rest key v

/-- The errors an operation can raise. -/
inductive JSError where
  | typeError : JSError
  deriving DecidableEq

deriving instance DecidableEq for Except

/-- The module variable `data` (lines 9-15). -/
structure Data where
  benchId : Option Nat
  guid : Option String
  is_loaded : Bool
  starting_date : Option JSInt
  map : SeriesTable
  deriving DecidableEq

/-- The initial value of `data`. -/
def initialData : Data :=
  { benchId := none, guid := none, is_loaded := false, starting_date := none, map := [] }

/-- Lines 17-21. -/
def _clearData (data : Data) : Data :=
  { data with is_loaded := false, starting_date := none, map := [] }

/-- Lines 63-65: `rawDate - data.starting_date`; an `undefined` starting date converts to
`NaN`. -/
def _convertDate (data : Data) (rawDate : JSInt) : JSInt :=
  match data.starting_date with
  | some d => JSInt.sub rawDate d
  | none => JSInt.nan

/-- Lines 51-57. -/
def _createMetric (data : Data) (metric : String) (observation : Observation) : Data :=
  let data1 :=
    if isFalsy data.starting_date then { data with starting_date := some observation.date }
    else data
  { data1 with
    map := data1.map.set metric
      [{ date := _convertDate data1 observation.date, value := observation.value }] }

/-- Lines 59-61: `push` on the array that `get` returns; on `undefined` the call raises a
`TypeError`. -/
def _updateMetric (data : Data) (metric : String) (observation : Observation) :
    Except JSError Data :=
  match data.map.get metric with
  | some series =>
    Except.ok { data with
      map := data.map.set metric
        (series ++ [{ date := _convertDate data observation.date, value := observation.value }]) }
  | none => Except.error JSError.typeError

/-- Lines 43-49. -/
def _addObservation (data : Data) (metric : String) (observation : Observation) :
    Except JSError Data :=
  if data.map.has metric then _updateMetric data metric observation
  else Except.ok (_createMetric data metric observation)

/-- Lines 31-37, the reading half of `_applyUpdate`: the observation a line yields, if
any. -/
def parseLine (update : List Char) : Option Observation :=
  let tokens := split '\t' update
  if 2 ≤ tokens.length then
    let date := parseInt (tokens.getD 0 [])
    let value := parseFloat (tokens.getD 1 [])
    if !date.isNaN && !value.isNaN then some { date := date, value := value } else none
  else none

/-- Lines 30-41: an observation read from the line is added, any other line does
nothing. -/
def _applyUpdate (data : Data) (metric : String) (update : List Char) : Except JSError Data :=
  match parseLine update with
  | some observation => _addObservation data metric observation
  | none => Except.ok data

/-- The loop `updates.forEach` of `_updateData`: apply the lines in order; an error ends
the loop. -/
def forEachUpdate (metric : String) : Data → List (List Char) → Except JSError Data
  | data, [] => Except.ok data
  | data, update :: updates =>
    match _applyUpdate data metric update with
    | Except.ok data1 => forEachUpdate metric data1 updates
    | Except.error e => Except.error e

/-- Lines 23-28. -/
def _updateData (data : Data) (metric : String) (rawData : String) : Except JSError Data :=
  forEachUpdate metric data (split '\n' rawData.toList)

/-- Lines 85-87. -/
def getCurrentBenchId (data : Data) : Option Nat := data.benchId

/-- Lines 89-94; `freshGuid` is what `Misc.gen_guid()` returns. -/
def resetSubscriptions (data : Data) (newBenchId : Nat) (freshGuid : String) : Data :=
  { data with benchId := some newBenchId, guid := some freshGuid, starting_date := none,
              map := [] }

/-- Lines 100-104. -/
def changeCurrentBench (data : Data) (benchId : Nat) (GUID : String) : Data :=
  _clearData { data with benchId := some benchId, guid := some GUID }

/-- Lines 106-108. -/
def isDataLoaded (_data : Data) : Bool := true

/-- Lines 110-114. -/
def updateMetricData (data : Data) (metric : String) (guid : Option String)
    (rawData : String) : Except JSError Data :=
  if data.guid = guid then _updateData data metric rawData else Except.ok data

/-- Lines 116-120. -/
def metricsBatchFinished (data : Data) (guid : Option String) : Data :=
  if data.guid = guid then { data with is_loaded := true } else data

/-- Lines 122-128. -/
def getMetricData (data : Data) (metric : String) : List Observation :=
  if data.map.has metric then (data.map.get metric).getD [] else []

/-- Lines 130-137: `m[m.length - 1]` of an empty array is `undefined`, and reading its
`date` raises a `TypeError`. -/
def getMetricMaxDate (data : Data) (metric : String) : Except JSError JSInt :=
  if data.map.has metric then
    let m := (data.map.get metric).getD []
    match m.getLast? with
    | some last => Except.ok last.date
    | none => Except.error JSError.typeError
  else Except.ok (JSInt.fin 0)

/-! ## The stores that can occur -/

/-- The stores that the operations of the class produce from the initial one. -/
inductive Reachable : Data → Prop
  | initial : Reachable initialData
  | reset (data : Data) (newBenchId : Nat) (freshGuid : String) :
      Reachable data → Reachable (resetSubscriptions data newBenchId freshGuid)
  | change (data : Data) (benchId : Nat) (GUID : String) :
      Reachable data → Reachable (changeCurrentBench data benchId GUID)
  | update (data data1 : Data) (metric : String) (guid : Option String) (rawData : String) :
      Reachable data → updateMetricData data metric guid rawData = Except.ok data1 →
      Reachable data1
  | finished (data : Data) (guid : Option String) :
      Reachable data → Reachable (metricsBatchFinished data guid)

/-- No series stored in the table is empty. -/
def SeriesNonEmpty (t : SeriesTable) : Prop := ∀ key series, t.get key = some series → series ≠ []

/-- The lines of a list that yield an observation. -/
def yieldingLines (updates : List (List Char)) : List (List Char) :=
  updates.filter (fun update => (parseLine update).isSome)

/-- The stores that the operations of the class produce from the initial one when every
timestamp read by `updateMetricData` is finite and of magnitude below half of
`overflowThreshold`, that is below 2^1023 - 2^969: no difference of two of them overflows. -/
inductive ReachableSafe : Data → Prop
  | initial : ReachableSafe initialData
  | reset (data : Data) (newBenchId : Nat) (freshGuid : String) :
      ReachableSafe data → ReachableSafe (resetSubscriptions data newBenchId freshGuid)
  | change (data : Data) (benchId : Nat) (GUID : String) :
      ReachableSafe data → ReachableSafe (changeCurrentBench data benchId GUID)
  | update (data data1 : Data) (metric : String) (guid : Option String) (rawData : String) :
      ReachableSafe data →
      (∀ update ∈ split '\n' rawData.toList, ∀ o, parseLine update = some o →
        ∃ n : Int, o.date = JSInt.fin n ∧ 2 * n.natAbs < overflowThreshold) →
      updateMetricData data metric guid rawData = Except.ok data1 →
      ReachableSafe data1
  | finished (data : Data) (guid : Option String) :
      ReachableSafe data → ReachableSafe (metricsBatchFinished data guid)

/-- A table with an entry comes with a starting date. -/
def OriginSet (data : Data) : Prop := data.map ≠ [] → ∃ d, data.starting_date = some d

/-- The starting date and all stored dates are integers, the former of magnitude below half
of `overflowThreshold`. -/
def IntegerDates (data : Data) : Prop :=
  (∀ d, data.starting_date = some d →
    ∃ n : Int, d = JSInt.fin n ∧ 2 * n.natAbs < overflowThreshold) ∧
  ∀ key series o, data.map.get key = some series → o ∈ series → ∃ n : Int, o.date = JSInt.fin n

/-! ## Decimal texts, to state what the reader of lines does on well formed input -/

/-- The decimal text of an integer: a `-` for a negative one, then the digits. -/
def intText (T : Int) : List Char :=
  (if T < 0 then ['-'] else []) ++ Nat.toDigits 10 T.natAbs

/-- A finite decimal: a sign, an integer part and the digits after the point. -/
structure Decimal where
  neg : Bool
  intPart : Nat
  frac : List (Fin 10)

/-- The digits after the point, as characters. -/
def Decimal.fracText (V : Decimal) : List Char := V.frac.map (fun d => Nat.digitChar d.val)

/-- The text of a finite decimal: the sign, the integer part, and when there are digits
after the point, the point and these digits. -/
def Decimal.text (V : Decimal) : List Char :=
  (if V.neg then ['-'] else []) ++
    (Nat.toDigits 10 V.intPart ++ (if V.frac.isEmpty then [] else '.' :: V.fracText))

/-- All the digits of a finite decimal read as one integer. -/
def Decimal.mantissa (V : Decimal) : Nat :=
  V.frac.foldl (fun acc d => acc * 10 + d.val) V.intPart

/-- The Number that a finite decimal writes. -/
def Decimal.toNumber (V : Decimal) : JSFloat :=
  JSFloat.lit V.neg V.mantissa (-(V.frac.length : Int))

/-- The value of the digits after the point. -/
def fracValue : List (Fin 10) → ℚ
  | [] => 0
  | d :: ds => ((d.val : ℚ) + fracValue ds) / 10

/-- The mathematical value of a finite decimal. -/
def Decimal.value (V : Decimal) : ℚ :=
  (if V.neg then -1 else 1) * ((V.intPart : ℚ) + fracValue V.frac)

/-- A series of two elements, used to run the accessors on. -/
def demoSeries : List Observation :=
  [{ date := JSInt.fin 0, value := JSFloat.lit false 5 (-1) },
   { date := JSInt.fin 1, value := JSFloat.lit false 7 (-1) }]

/-- A store whose table holds `demoSeries` for the metric `cpu`: the initial store after
`updateMetricData` with the lines `1000\t0.5` and `1001\t0.7`. -/
def demoData : Data :=
  { initialData with starting_date := some (JSInt.fin 1000), map := [("cpu", demoSeries)] }

/-- The store after `resetSubscriptions` with guid `T` and the line `0\t1` for metric
`a`: the starting date is set, to 0. -/
def zeroOriginData : Data :=
  { benchId := some 1, guid := some "T", is_loaded := false,
    starting_date := some (JSInt.fin 0),
    map := [("a", [{ date := JSInt.fin 0, value := JSFloat.lit false 1 0 }])] }

/-- A line whose timestamp is 1 followed by 309 zeros, and whose value is 1. -/
def overflowText : String := String.mk ('1' :: List.replicate 309 '0' ++ ['\t', '1'])

/-- The store after `resetSubscriptions` with guid `T` and `updateMetricData` with
`overflowText` for metric `a`. -/
def overflowAnchorData : Data :=
  { benchId := some 1, guid := some "T", is_loaded := false,
    starting_date := some (JSInt.inf false),
    map := [("a", [{ date := JSInt.nan, value := JSFloat.lit false 1 0 }])] }

/-- The initial store after `updateMetricData` with `overflowText` for metric `a`. -/
def overflowData : Data :=
  { initialData with
    starting_date := some (JSInt.inf false),
    map := [("a", [{ date := JSInt.nan, value := JSFloat.lit false 1 0 }])] }

/-! ## Basic facts -/

theorem split_ne_nil (sep : Char) (s : List Char) : split sep s ≠ [] := by
  induction s with
  | nil => simp [split]
  | cons c cs ih =>
    unfold split
    split_ifs
    · simp
    · cases h : split sep cs <;> simp

theorem split_append_sep (sep : Char) (a b : List Char) :
    split sep (a ++ sep :: b) = split sep a ++ split sep b := by
  induction a with
  | nil => simp [split]
  | cons c cs ih =>
    by_cases hc : c = sep
    · simp [split, hc, ih]
    · rw [List.cons_append, split, if_neg hc, ih, split, if_neg hc]
      cases h : split sep cs with
      | nil => exact absurd h (split_ne_nil sep cs)
      | cons f fs => simp

theorem split_of_not_mem (sep : Char) (s : List Char) (h : sep ∉ s) : split sep s = [s] := by
  induction s with
  | nil => simp [split]
  | cons c cs ih =>
    have hc : c ≠ sep := fun e => h (by simp [e])
    have hcs : sep ∉ cs := fun e => h (by simp [e])
    simp [split, hc, ih hcs]

theorem forEachUpdate_append (metric : String) (data : Data) (xs ys : List (List Char)) :
    forEachUpdate metric data (xs ++ ys) =
      (forEachUpdate metric data xs).bind (fun data1 => forEachUpdate metric data1 ys) := by
  induction xs generalizing data with
  | nil => simp [forEachUpdate, Except.bind]
  | cons x xs ih =>
    simp only [List.cons_append, forEachUpdate]
    cases h : _applyUpdate data metric x with
    | error e => simp [Except.bind]
    | ok data1 => simpa using ih data1

theorem forEachUpdate_skip (metric : String) (data : Data) (x : List Char)
    (xs : List (List Char)) (h : parseLine x = none) :
    forEachUpdate metric data (x :: xs) = forEachUpdate metric data xs := by
  simp [forEachUpdate, _applyUpdate, h]

theorem _addObservation_ok (data : Data) (metric : String) (observation : Observation) :
    ∃ data1, _addObservation data metric observation = Except.ok data1 ∧
      data1.guid = data.guid ∧ data1.benchId = data.benchId ∧
      data1.is_loaded = data.is_loaded := by
  unfold _addObservation SeriesTable.has
  cases h : data.map.get metric with
  | none =>
    refine ⟨_createMetric data metric observation, by simp, ?_, ?_, ?_⟩ <;>
      (unfold _createMetric; split_ifs <;> rfl)
  | some series => simp [_updateMetric, h]

theorem _applyUpdate_ok (data : Data) (metric : String) (update : List Char) :
    ∃ data1, _applyUpdate data metric update = Except.ok data1 ∧
      data1.guid = data.guid ∧ data1.benchId = data.benchId ∧
      data1.is_loaded = data.is_loaded := by
  unfold _applyUpdate
  cases parseLine update with
  | none => exact ⟨data, rfl, rfl, rfl, rfl⟩
  | some observation => exact _addObservation_ok data metric observation

theorem forEachUpdate_ok (metric : String) (data : Data) (updates : List (List Char)) :
    ∃ data1, forEachUpdate metric data updates = Except.ok data1 ∧
      data1.guid = data.guid ∧ data1.benchId = data.benchId ∧
      data1.is_loaded = data.is_loaded := by
  induction updates generalizing data with
  | nil => exact ⟨data, rfl, rfl, rfl, rfl⟩
  | cons u us ih =>
    obtain ⟨d1, h1, g1, b1, l1⟩ := _applyUpdate_ok data metric u
    obtain ⟨d2, h2, g2, b2, l2⟩ := ih d1
    exact ⟨d2, by simp [forEachUpdate, h1, h2], g2.trans g1, b2.trans b1, l2.trans l1⟩

theorem parseLine_of_split (line f0 f1 : List Char) (rest : List (List Char))
    (hs : split '\t' line = f0 :: f1 :: rest) :
    parseLine line =
      if (parseInt f0).isNaN = false ∧ (parseFloat f1).isNaN = false then
        some { date := parseInt f0, value := parseFloat f1 }
      else none := by
  unfold parseLine
  rw [hs]
  cases hd : (parseInt f0).isNaN <;> cases hv : (parseFloat f1).isNaN <;>
    simp [hd, hv]

theorem ofInt_zero : JSInt.ofInt 0 = JSInt.fin 0 := by decide

theorem ofInt_one : JSInt.ofInt 1 = JSInt.fin 1 := by decide

theorem ofInt_two : JSInt.ofInt 2 = JSInt.fin 2 := by decide

theorem updateMetricData_stale (data : Data) (metric : String) (guid : Option String)
    (rawData : String) (h : guid ≠ data.guid) :
    updateMetricData data metric guid rawData = Except.ok data := by
  unfold updateMetricData
  rw [if_neg (fun e => h e.symm)]

theorem toList_append_newline (a b : String) :
    (a ++ "\n" ++ b).toList = a.toList ++ '\n' :: b.toList := by
  simp

/-! ## No stored series is empty -/

theorem get_set (t : SeriesTable) (key key1 : String) (v : List Observation) :
    (t.set key v).get key1 = if key1 = key then some v else t.get key1 := by
  induction t with
  | nil =>
    by_cases h : key1 = key
    · simp [SeriesTable.set, SeriesTable.get, h]
    · simp [SeriesTable.set, SeriesTable.get, h, Ne.symm h]
  | cons e rest ih =>
    obtain ⟨k, v0⟩ := e
    by_cases hk : k = key
    · by_cases h : key1 = key
      · simp [SeriesTable.set, SeriesTable.get, hk, h]
      · simp [SeriesTable.set, SeriesTable.get, hk, h, Ne.symm h]
    · by_cases h : key1 = key
      · subst h
        simp [SeriesTable.set, SeriesTable.get, hk, ih]
      · by_cases hk1 : k = key1
        · simp [SeriesTable.set, SeriesTable.get, hk, h, hk1]
        · simp [SeriesTable.set, SeriesTable.get, hk, h, hk1, ih]

theorem seriesNonEmpty_set (t : SeriesTable) (key : String) (v : List Observation)
    (ht : SeriesNonEmpty t) (hv : v ≠ []) : SeriesNonEmpty (t.set key v) := by
  intro key1 series h
  rw [get_set] at h
  split_ifs at h with hk
  · rw [← Option.some.inj h]; exact hv
  · exact ht key1 series h

theorem _addObservation_nonEmpty (data data1 : Data) (metric : String) (o : Observation)
    (h : _addObservation data metric o = Except.ok data1) (hd : SeriesNonEmpty data.map) :
    SeriesNonEmpty data1.map := by
  unfold _addObservation SeriesTable.has at h
  cases hg : data.map.get metric with
  | none =>
    simp only [hg, Option.isSome_none, Bool.false_eq_true, if_false] at h
    rw [← Except.ok.inj h]
    unfold _createMetric
    split_ifs <;> exact seriesNonEmpty_set _ _ _ hd (by simp)
  | some series =>
    simp only [hg, Option.isSome_some, if_true, _updateMetric] at h
    rw [← Except.ok.inj h]
    exact seriesNonEmpty_set _ _ _ hd (by simp)

theorem forEachUpdate_nonEmpty (metric : String) (updates : List (List Char)) :
    ∀ data data1, forEachUpdate metric data updates = Except.ok data1 →
      SeriesNonEmpty data.map → SeriesNonEmpty data1.map := by
  induction updates with
  | nil =>
    intro data data1 h hd
    rw [← Except.ok.inj h]; exact hd
  | cons u us ih =>
    intro data data1 h hd
    unfold forEachUpdate at h
    cases hu : _applyUpdate data metric u with
    | error e => rw [hu] at h; cases h
    | ok d2 =>
      rw [hu] at h
      refine ih d2 data1 h ?_
      unfold _applyUpdate at hu
      cases hp : parseLine u with
      | none => rw [hp] at hu; rw [← Except.ok.inj hu]; exact hd
      | some o => rw [hp] at hu; exact _addObservation_nonEmpty _ _ _ _ hu hd

theorem reachable_nonEmpty (data : Data) (h : Reachable data) : SeriesNonEmpty data.map := by
  induction h with
  | initial => intro k s hk; simp [initialData, SeriesTable.get] at hk
  | reset data B g _ _ => intro k s hk; simp [resetSubscriptions, SeriesTable.get] at hk
  | change data B g _ _ =>
    intro k s hk; simp [changeCurrentBench, _clearData, SeriesTable.get] at hk
  | update data data1 metric guid rawData _ hu ih =>
    unfold updateMetricData at hu
    split_ifs at hu
    · exact forEachUpdate_nonEmpty _ _ _ _ hu ih
    · rw [← Except.ok.inj hu]; exact ih
  | finished data guid _ ih =>
    unfold metricsBatchFinished
    split_ifs
    · exact ih
    · exact ih

theorem demoData_reachable : Reachable demoData :=
  Reachable.update initialData demoData "cpu" none "1000\t0.5\n1001\t0.7" Reachable.initial
    (by decide)

/-! ## Rounding of integers -/

theorem bitLengthAux_le (fuel : Nat) : ∀ n k, n ≤ fuel → n < 2 ^ k → bitLengthAux fuel n ≤ k := by
  induction fuel with
  | zero => intro n k _ _; simp [bitLengthAux]
  | succ f ih =>
    intro n k hn hk
    unfold bitLengthAux
    split_ifs with h0
    · exact Nat.zero_le _
    · cases k with
      | zero => simp at hk; exact absurd hk h0
      | succ k =>
        have h2 : n / 2 < 2 ^ k := by
          rw [Nat.div_lt_iff_lt_mul (by decide)]
          rw [Nat.pow_succ] at hk
          exact hk
        have h3 : n / 2 ≤ f := by omega
        have := ih (n / 2) k h3 h2
        omega

theorem bitLength_le (n k : Nat) (h : n < 2 ^ k) : bitLength n ≤ k :=
  bitLengthAux_le n n k (Nat.le_refl n) h

theorem roundNat53_small (n : Nat) (h : n ≤ 2 ^ 53) : roundNat53 n = n := by
  rcases Nat.lt_or_eq_of_le h with h1 | h1
  · unfold roundNat53
    simp only []
    rw [if_pos (bitLength_le n 53 h1)]
  · subst h1
    decide

theorem ofInt_small (z : Int) (h : z.natAbs ≤ 2 ^ 53) : JSInt.ofInt z = JSInt.fin z := by
  unfold JSInt.ofInt
  simp only [roundNat53_small _ h]
  have hb : bitLength z.natAbs ≤ 54 := bitLength_le _ 54 (by omega)
  rw [if_neg (by omega)]
  congr 1
  split_ifs with hz <;> omega

/-! ## When rounding overflows -/

theorem bitLengthAux_lt (fuel : Nat) : ∀ n k, n ≤ fuel → bitLengthAux fuel n ≤ k → n < 2 ^ k := by
  induction fuel with
  | zero =>
    intro n k hn _
    have : n = 0 := by omega
    subst this
    exact Nat.two_pow_pos _
  | succ f ih =>
    intro n k hn hk
    unfold bitLengthAux at hk
    split_ifs at hk with h0
    · subst h0; exact Nat.two_pow_pos _
    · cases k with
      | zero => omega
      | succ k =>
        have h3 : n / 2 ≤ f := by omega
        have := ih (n / 2) k h3 (by omega)
        rw [Nat.pow_succ]
        omega

theorem bitLength_le_iff (n k : Nat) : bitLength n ≤ k ↔ n < 2 ^ k :=
  ⟨bitLengthAux_lt n n k (Nat.le_refl n), bitLength_le n k⟩

theorem lt_pow_bitLength (n : Nat) : n < 2 ^ bitLength n :=
  (bitLength_le_iff n _).mp (Nat.le_refl _)

theorem pow_bitLength_le (n : Nat) (h : 0 < bitLength n) : 2 ^ (bitLength n - 1) ≤ n := by
  by_contra hc
  have := (bitLength_le_iff n (bitLength n - 1)).mpr (by omega)
  omega

/-- The rounding of `n` lies between the powers of two around `n`. -/
theorem roundNat53_bounds (n : Nat) (h : 53 < bitLength n) :
    ∃ q1, roundNat53 n = q1 * 2 ^ (bitLength n - 53) ∧ 2 ^ 52 ≤ q1 ∧ q1 ≤ 2 ^ 53 ∧
      n / 2 ^ (bitLength n - 53) < 2 ^ 53 ∧
      (q1 = n / 2 ^ (bitLength n - 53) ∨ q1 = n / 2 ^ (bitLength n - 53) + 1) ∧
      (q1 = n / 2 ^ (bitLength n - 53) + 1 ↔
        (2 ^ (bitLength n - 53 - 1) < n % 2 ^ (bitLength n - 53) ∨
          (n % 2 ^ (bitLength n - 53) = 2 ^ (bitLength n - 53 - 1) ∧
            n / 2 ^ (bitLength n - 53) % 2 = 1))) := by
  have hlo := pow_bitLength_le n (by omega)
  have hhi := lt_pow_bitLength n
  set b := bitLength n with hb
  have hsplit : b = 53 + (b - 53) := by omega
  have hsplit2 : b - 1 = 52 + (b - 53) := by omega
  have hq_lo : 2 ^ 52 ≤ n / 2 ^ (b - 53) := by
    rw [Nat.le_div_iff_mul_le (Nat.two_pow_pos _), ← pow_add, ← hsplit2]
    exact hlo
  have hq_hi : n / 2 ^ (b - 53) < 2 ^ 53 := by
    rw [Nat.div_lt_iff_lt_mul (Nat.two_pow_pos _), ← pow_add, ← hsplit]
    exact hhi
  unfold roundNat53
  simp only [← hb, if_neg (by omega : ¬ b ≤ 53)]
  split_ifs with hr
  · exact ⟨_, rfl, by omega, by omega, hq_hi, Or.inr rfl, by simp [hr]⟩
  · refine ⟨_, rfl, hq_lo, by omega, hq_hi, Or.inl rfl, ?_⟩
    constructor
    · intro h; omega
    · intro h; exact absurd h hr

set_option exponentiation.threshold 2048 in
theorem overflowThreshold_eq : overflowThreshold = (2 ^ 54 - 1) * 2 ^ 970 := by
  unfold overflowThreshold
  rw [Nat.shiftLeft_eq]

set_option exponentiation.threshold 2048 in
/-- The rounding of `n` stays below `2^1024` exactly when `n` is below the threshold. -/
theorem roundNat53_lt_iff (n : Nat) : roundNat53 n < 2 ^ 1024 ↔ n < overflowThreshold := by
  have e1024 : (2 : Nat) ^ 1024 = 2 ^ 54 * 2 ^ 970 := by norm_num
  have e1023 : (2 : Nat) ^ 1023 = 2 ^ 53 * 2 ^ 970 := by norm_num
  have e971 : (2 : Nat) ^ 971 = 2 * 2 ^ 970 := by norm_num
  have hP : 0 < (2 : Nat) ^ 970 := Nat.two_pow_pos _
  have h54 : (2 : Nat) ^ 54 = 18014398509481984 := by norm_num
  have h53 : (2 : Nat) ^ 53 = 9007199254740992 := by norm_num
  have h52 : (2 : Nat) ^ 52 = 4503599627370496 := by norm_num
  rw [overflowThreshold_eq, e1024]
  by_cases hb : bitLength n ≤ 53
  · have hn : n < 2 ^ 53 := (bitLength_le_iff n 53).mp hb
    have hr : roundNat53 n = n := roundNat53_small n (Nat.le_of_lt hn)
    rw [hr]
    generalize (2 : Nat) ^ 970 = P at *
    have : 1 ≤ P := hP
    have h1 : 2 ^ 53 * 1 ≤ 2 ^ 54 * P := Nat.mul_le_mul (by omega) this
    have h2 : (2 ^ 54 - 1) * 1 ≤ (2 ^ 54 - 1) * P := Nat.mul_le_mul (Nat.le_refl _) this
    constructor <;> intro _ <;> omega
  · obtain ⟨q1, hR, hq1lo, hq1hi, hqlt, hq1, hup⟩ := roundNat53_bounds n (by omega)
    have hlo := pow_bitLength_le n (by omega)
    have hhi := lt_pow_bitLength n
    rcases Nat.lt_trichotomy (bitLength n) 1024 with hlt | heq | hgt
    · -- below the largest exponent: no overflow
      have hb2 : (2 : Nat) ^ bitLength n ≤ 2 ^ 1023 :=
        Nat.pow_le_pow_right (by decide) (by omega)
      have hRle : roundNat53 n ≤ 2 ^ bitLength n := by
        rw [hR]
        calc q1 * 2 ^ (bitLength n - 53) ≤ 2 ^ 53 * 2 ^ (bitLength n - 53) :=
              Nat.mul_le_mul hq1hi (Nat.le_refl _)
          _ = 2 ^ bitLength n := by rw [← pow_add]; congr 1; omega
      rw [e1023] at hb2
      generalize (2 : Nat) ^ 970 = P at *
      generalize (2 : Nat) ^ bitLength n = B at *
      constructor <;> intro _ <;> omega
    · -- the largest exponent: overflow exactly from the threshold on
      have hsh : bitLength n - 53 = 971 := by omega
      have hsh1 : bitLength n - 53 - 1 = 970 := by omega
      rw [hsh] at hR hq1 hup hqlt
      rw [show 971 - 1 = 970 from rfl] at hup
      rw [hR]
      have hdm := Nat.div_add_mod n (2 ^ 971)
      have hmod := Nat.mod_lt n (Nat.two_pow_pos 971)
      rw [e971] at hR hq1 hup hdm hmod hqlt ⊢
      generalize (2 : Nat) ^ 970 = P at *
      generalize hq : n / (2 * P) = q at *
      generalize hr : n % (2 * P) = r at *
      have hq_hi : q < 2 ^ 53 := hqlt
      by_cases hqmax : q = 2 ^ 53 - 1
      · have hodd : q % 2 = 1 := by omega
        have hqP : 2 * P * q = 18014398509481982 * P := by
          rw [hqmax, h53]
          ring
        by_cases hrP : r < P
        · have hq1q : q1 = q := by
            rcases hq1 with h | h
            · exact h
            · have := hup.mp h
              omega
          have hlt2 : q1 * (2 * P) < 2 ^ 54 * P := by
            rw [hq1q, mul_comm q, hqP]
            omega
          constructor <;> intro _
          · omega
          · exact hlt2
        · have hq1q : q1 = q + 1 := by
            apply hup.mpr
            omega
          have hge : 2 ^ 54 * P ≤ q1 * (2 * P) := by
            rw [hq1q, hqmax, h53, h54]
            have : (9007199254740992 - 1 + 1) * (2 * P) = 18014398509481984 * P := by ring
            omega
          constructor <;> intro _ <;> omega
      · have hq1le : q1 ≤ 2 ^ 53 - 1 := by
          rcases hq1 with h | h <;> omega
        have h1 : q1 * (2 * P) ≤ (2 ^ 53 - 1) * (2 * P) := Nat.mul_le_mul hq1le (Nat.le_refl _)
        have h2 : (2 ^ 53 - 1) * (2 * P) = 18014398509481982 * P := by
          rw [h53]; ring
        have h3 : 2 * P * q + 2 * P ≤ (2 ^ 53 - 1) * (2 * P) := by
          have : q + 1 ≤ 2 ^ 53 - 1 := by omega
          calc 2 * P * q + 2 * P = (q + 1) * (2 * P) := by ring
            _ ≤ (2 ^ 53 - 1) * (2 * P) := Nat.mul_le_mul this (Nat.le_refl _)
        constructor <;> intro _ <;> omega
    · -- beyond the largest exponent: overflow
      have hb2 : (2 : Nat) ^ 1024 ≤ 2 ^ (bitLength n - 1) :=
        Nat.pow_le_pow_right (by decide) (by omega)
      have hRge : 2 ^ (bitLength n - 1) ≤ roundNat53 n := by
        rw [hR]
        calc 2 ^ (bitLength n - 1) = 2 ^ 52 * 2 ^ (bitLength n - 53) := by
              rw [← pow_add]; congr 1; omega
          _ ≤ q1 * 2 ^ (bitLength n - 53) := Nat.mul_le_mul hq1lo (Nat.le_refl _)
      rw [e1024] at hb2
      generalize (2 : Nat) ^ 970 = P at *
      generalize (2 : Nat) ^ (bitLength n - 1) = B at *
      constructor <;> intro _ <;> omega

theorem ofInt_fin_iff (z : Int) :
    (∃ k, JSInt.ofInt z = JSInt.fin k) ↔ z.natAbs < overflowThreshold := by
  rw [← roundNat53_lt_iff, ← bitLength_le_iff]
  unfold JSInt.ofInt
  simp only []
  by_cases h : 1024 < bitLength (roundNat53 z.natAbs)
  · rw [if_pos h]
    constructor
    · rintro ⟨k, hk⟩; cases hk
    · intro h2; omega
  · rw [if_neg h]
    constructor
    · intro _; omega
    · intro _; exact ⟨_, rfl⟩

/-- When the operator `-` gives an integer: both numbers are finite and their difference is
below the overflow threshold. In every other case it gives `NaN` or an infinity. -/
theorem sub_fin_iff (t d : JSInt) :
    ((∃ k, JSInt.sub t d = JSInt.fin k) ↔
      ∃ a b, t = JSInt.fin a ∧ d = JSInt.fin b ∧ (a - b).natAbs < overflowThreshold) ∧
    ((¬ ∃ k, JSInt.sub t d = JSInt.fin k) →
      JSInt.sub t d = JSInt.nan ∨ ∃ neg, JSInt.sub t d = JSInt.inf neg) := by
  constructor
  · cases t with
    | nan =>
      constructor
      · rintro ⟨k, hk⟩; simp [JSInt.sub] at hk
      · rintro ⟨a, b, h, -⟩; cases h
    | inf s =>
      constructor
      · rintro ⟨k, hk⟩
        cases d with
        | nan => simp [JSInt.sub] at hk
        | inf s2 => simp only [JSInt.sub] at hk; split_ifs at hk
        | fin b => simp [JSInt.sub] at hk
      · rintro ⟨a, b, h, -⟩; cases h
    | fin a =>
      cases d with
      | nan =>
        constructor
        · rintro ⟨k, hk⟩; simp [JSInt.sub] at hk
        · rintro ⟨a', b, -, h, -⟩; cases h
      | inf s2 =>
        constructor
        · rintro ⟨k, hk⟩; simp [JSInt.sub] at hk
        · rintro ⟨a', b, -, h, -⟩; cases h
      | fin b =>
        show (∃ k, JSInt.ofInt (a - b) = JSInt.fin k) ↔ _
        rw [ofInt_fin_iff]
        constructor
        · intro h; exact ⟨a, b, rfl, rfl, h⟩
        · rintro ⟨a', b', h1, h2, h3⟩
          cases h1; cases h2; exact h3
  · intro h
    cases hs : JSInt.sub t d with
    | nan => exact Or.inl rfl
    | inf s => exact Or.inr ⟨s, rfl⟩
    | fin k => exact absurd ⟨k, hs⟩ h

theorem sub_fin_of_bound (a b : Int) (ha : 2 * a.natAbs < overflowThreshold)
    (hb : 2 * b.natAbs < overflowThreshold) :
    ∃ k, JSInt.sub (JSInt.fin a) (JSInt.fin b) = JSInt.fin k :=
  (sub_fin_iff (JSInt.fin a) (JSInt.fin b)).1.mpr ⟨a, b, rfl, rfl, by omega⟩

set_option exponentiation.threshold 2048 in
theorem overflowThreshold_large : 2 ^ 54 ≤ overflowThreshold := by
  rw [overflowThreshold_eq]
  have hP : 1 ≤ (2 : Nat) ^ 970 := Nat.two_pow_pos _
  have h2 : (2 : Nat) ^ 1 ≤ 2 ^ 970 := Nat.pow_le_pow_right (by decide) (by decide)
  calc 2 ^ 54 ≤ (2 ^ 54 - 1) * 2 ^ 1 := by norm_num
    _ ≤ (2 ^ 54 - 1) * 2 ^ 970 := Nat.mul_le_mul (Nat.le_refl _) h2

/-! ## Reading the decimal text of a number -/

theorem isRadixDigit_ten (c : Char) : isRadixDigit 10 c = true ↔ (48 ≤ c.toNat ∧ c.toNat ≤ 57) := by
  unfold isRadixDigit digitValue
  by_cases h : 48 ≤ c.toNat ∧ c.toNat ≤ 57
  · simp [h]
  · simp [h]

theorem digitValue_digitChar (d : Nat) (h : d < 10) :
    digitValue 10 (Nat.digitChar d) = some d := by
  interval_cases d <;> decide

theorem isRadixDigit_digitChar (d : Nat) (h : d < 10) :
    isRadixDigit 10 (Nat.digitChar d) = true := by
  simp [isRadixDigit, digitValue_digitChar d h]

theorem digitsValue_append_singleton (radix : Nat) (ds : List Char) (c : Char) :
    digitsValue radix (ds ++ [c]) = digitsValue radix ds * radix + (digitValue radix c).getD 0 := by
  simp [digitsValue, List.foldl_append]

theorem toDigitsCore_spec (fuel : Nat) : ∀ n, n < fuel →
    ∃ pre : List Char, pre ≠ [] ∧ (∀ c ∈ pre, isRadixDigit 10 c = true) ∧
      digitsValue 10 pre = n ∧ ∀ ds, Nat.toDigitsCore 10 fuel n ds = pre ++ ds := by
  induction fuel with
  | zero => intro n h; omega
  | succ f ih =>
    intro n hn
    by_cases h0 : n / 10 = 0
    · refine ⟨[Nat.digitChar (n % 10)], by simp, ?_, ?_, ?_⟩
      · intro c hc
        simp only [List.mem_singleton] at hc
        subst hc
        exact isRadixDigit_digitChar _ (Nat.mod_lt _ (by decide))
      · have h10 : n < 10 := by omega
        have hm : n % 10 = n := by omega
        rw [hm]
        simp [digitsValue, digitValue_digitChar n h10]
      · intro ds
        simp [Nat.toDigitsCore, h0]
    · obtain ⟨pre, hne, hdig, hval, hcore⟩ := ih (n / 10) (by omega)
      refine ⟨pre ++ [Nat.digitChar (n % 10)], by simp, ?_, ?_, ?_⟩
      · intro c hc
        rcases List.mem_append.mp hc with hc | hc
        · exact hdig c hc
        · simp only [List.mem_singleton] at hc
          subst hc
          exact isRadixDigit_digitChar _ (Nat.mod_lt _ (by decide))
      · rw [digitsValue_append_singleton, hval,
          digitValue_digitChar _ (Nat.mod_lt n (by decide : 10 > 0))]
        simp only [Option.getD_some]
        omega
      · intro ds
        simp [Nat.toDigitsCore, h0, hcore]

theorem toDigits_spec (n : Nat) :
    Nat.toDigits 10 n ≠ [] ∧ (∀ c ∈ Nat.toDigits 10 n, isRadixDigit 10 c = true) ∧
      digitsValue 10 (Nat.toDigits 10 n) = n := by
  obtain ⟨pre, hne, hdig, hval, hcore⟩ := toDigitsCore_spec (n + 1) n (Nat.lt_succ_self n)
  have : Nat.toDigits 10 n = pre := by
    unfold Nat.toDigits
    rw [hcore []]
    simp
  rw [this]
  exact ⟨hne, hdig, hval⟩

theorem digit_toNat (c : Char) (h : isRadixDigit 10 c = true) : 48 ≤ c.toNat ∧ c.toNat ≤ 57 :=
  (isRadixDigit_ten c).mp h

theorem not_ws_of_digit (c : Char) (h : isRadixDigit 10 c = true) :
    isStrWhiteSpaceChar c = false := by
  have := digit_toNat c h
  unfold isStrWhiteSpaceChar
  simp
  omega

theorem takeSign_of_digit (c : Char) (r : List Char) (h : isRadixDigit 10 c = true) :
    takeSign (c :: r) = (false, c :: r) := by
  have := digit_toNat c h
  unfold takeSign
  split
  · rename_i heq
    injection heq with h1 _
    subst h1
    exact absurd this (by decide)
  · rename_i heq
    injection heq with h1 _
    subst h1
    exact absurd this (by decide)
  · rfl

theorem takeRadix_of_digits (s : List Char) (h : ∀ c ∈ s, isRadixDigit 10 c = true) :
    takeRadix s = (10, s) := by
  unfold takeRadix
  split
  · have := digit_toNat 'x' (h 'x' (by simp))
    exact absurd this (by decide)
  · have := digit_toNat 'X' (h 'X' (by simp))
    exact absurd this (by decide)
  · rfl

theorem takeWhile_digits (s : List Char) (h : ∀ c ∈ s, isRadixDigit 10 c = true) :
    s.takeWhile (isRadixDigit 10) = s := by
  have := @List.takeWhile_append_of_pos _ (isRadixDigit 10) s [] h
  simpa using this

theorem parseInt_digits (neg : Bool) (s : List Char) (hne : s ≠ [])
    (h : ∀ c ∈ s, isRadixDigit 10 c = true) :
    parseInt ((if neg then ['-'] else []) ++ s) =
      JSInt.ofInt (if neg then -(digitsValue 10 s : Int) else (digitsValue 10 s : Int)) := by
  obtain ⟨c, r, rfl⟩ := List.exists_cons_of_ne_nil hne
  have hc : isRadixDigit 10 c = true := h c (by simp)
  have hws := not_ws_of_digit c hc
  unfold parseInt
  cases neg
  · simp only [Bool.false_eq_true, if_false, List.nil_append]
    rw [List.dropWhile_cons_of_neg (by simp [hws])]
    simp only [takeSign_of_digit c r hc, takeRadix_of_digits _ h, takeWhile_digits _ h]
    simp
  · simp only [if_true, List.singleton_append]
    rw [List.dropWhile_cons_of_neg (by decide)]
    have : takeSign ('-' :: c :: r) = (true, c :: r) := rfl
    simp only [this, takeRadix_of_digits _ h, takeWhile_digits _ h]
    simp

theorem parseInt_intText (T : Int) : parseInt (intText T) = JSInt.ofInt T := by
  obtain ⟨hne, hdig, hval⟩ := toDigits_spec T.natAbs
  unfold intText
  have := parseInt_digits (decide (T < 0)) _ hne hdig
  simp only [decide_eq_true_eq] at this
  rw [this, hval]
  congr 1
  split_ifs with h <;> omega

theorem fracText_digits (V : Decimal) : ∀ c ∈ V.fracText, isRadixDigit 10 c = true := by
  intro c hc
  unfold Decimal.fracText at hc
  obtain ⟨d, -, rfl⟩ := List.mem_map.mp hc
  exact isRadixDigit_digitChar d.val d.isLt

theorem foldl_fracText (frac : List (Fin 10)) (a : Nat) :
    (frac.map (fun d => Nat.digitChar d.val)).foldl
        (fun acc c => acc * 10 + (digitValue 10 c).getD 0) a =
      frac.foldl (fun acc d => acc * 10 + d.val) a := by
  induction frac generalizing a with
  | nil => rfl
  | cons d ds ih =>
    simp only [List.map_cons, List.foldl_cons, digitValue_digitChar d.val d.isLt,
      Option.getD_some]
    exact ih _

theorem infinity_not_start (c : Char) (r : List Char) (h : isRadixDigit 10 c = true) :
    "Infinity".toList.isPrefixOf (c :: r) = false := by
  have hI : "Infinity".toList = 'I' :: "nfinity".toList := by decide
  have hc : ('I' == c) = false := by
    have := digit_toNat c h
    rw [beq_eq_false_iff_ne]
    rintro rfl
    exact absurd this (by decide)
  rw [hI, List.isPrefixOf, hc]
  rfl

theorem parseFloat_text (V : Decimal) : parseFloat V.text = V.toNumber := by
  obtain ⟨hne, hdig, hval⟩ := toDigits_spec V.intPart
  obtain ⟨c, r, hcr⟩ := List.exists_cons_of_ne_nil hne
  have hc : isRadixDigit 10 c = true := hdig c (by rw [hcr]; simp)
  have hws := not_ws_of_digit c hc
  -- the part after the integer digits
  have htail : ∀ tail : List Char, (tail = [] ∨ ∃ t, tail = '.' :: t) →
      (Nat.toDigits 10 V.intPart ++ tail).takeWhile (isRadixDigit 10) = Nat.toDigits 10 V.intPart ∧
      (Nat.toDigits 10 V.intPart ++ tail).dropWhile (isRadixDigit 10) = tail := by
    intro tail ht
    rw [List.takeWhile_append_of_pos hdig, List.dropWhile_append_of_pos hdig]
    rcases ht with rfl | ⟨t, rfl⟩
    · simp
    · have hdot : isRadixDigit 10 '.' = false := by decide
      simp [hdot]
  have hsign : takeSign ((if V.neg then ['-'] else []) ++
      (Nat.toDigits 10 V.intPart ++ (if V.frac.isEmpty then [] else '.' :: V.fracText))) =
      (V.neg, Nat.toDigits 10 V.intPart ++ (if V.frac.isEmpty then [] else '.' :: V.fracText)) := by
    cases V.neg
    · simp only [Bool.false_eq_true, if_false, List.nil_append]
      rw [hcr, List.cons_append]
      exact takeSign_of_digit c _ hc
    · rfl
  have hdrop : ((if V.neg then ['-'] else []) ++
      (Nat.toDigits 10 V.intPart ++ (if V.frac.isEmpty then [] else '.' :: V.fracText))).dropWhile
        isStrWhiteSpaceChar = (if V.neg then ['-'] else []) ++
      (Nat.toDigits 10 V.intPart ++ (if V.frac.isEmpty then [] else '.' :: V.fracText)) := by
    cases V.neg
    · simp only [Bool.false_eq_true, if_false, List.nil_append]
      rw [hcr, List.cons_append]
      exact List.dropWhile_cons_of_neg (by simp [hws])
    · exact List.dropWhile_cons_of_neg (by decide)
  unfold parseFloat Decimal.text
  simp only [hdrop, hsign]
  have hinf : "Infinity".toList.isPrefixOf
      (Nat.toDigits 10 V.intPart ++ (if V.frac.isEmpty then [] else '.' :: V.fracText)) = false := by
    rw [hcr, List.cons_append]
    exact infinity_not_start c _ hc
  rw [hinf]
  have hip : (Nat.toDigits 10 V.intPart).isEmpty = false := by
    rw [hcr]; rfl
  unfold Decimal.toNumber Decimal.mantissa
  cases hf : V.frac with
  | nil =>
    have ht := htail [] (Or.inl rfl)
    simp only [List.isEmpty_nil, if_true, ht.1, ht.2, takeFraction, hip]
    simp [takeExponent, hval]
  | cons d ds =>
    have hft : V.fracText = (d :: ds).map (fun d => Nat.digitChar d.val) := by
      unfold Decimal.fracText; rw [hf]
    have hfd : ∀ c ∈ (d :: ds).map (fun d => Nat.digitChar d.val), isRadixDigit 10 c = true := by
      rw [← hft]; exact fracText_digits V
    have ht := htail ('.' :: V.fracText) (Or.inr ⟨_, rfl⟩)
    simp only [List.isEmpty_cons, Bool.false_eq_true, if_false, ht.1, ht.2, takeFraction, hip]
    rw [hft, takeWhile_digits _ hfd]
    have hd : ((d :: ds).map (fun d => Nat.digitChar d.val)).dropWhile (isRadixDigit 10) = [] := by
      have := @List.dropWhile_append_of_pos _ (isRadixDigit 10) _ [] hfd
      simpa using this
    rw [hd]
    simp only [Bool.false_and, Bool.false_eq_true, if_false, takeExponent]
    congr 1
    · unfold digitsValue
      rw [List.foldl_append, ← digitsValue, hval]
      exact foldl_fracText (d :: ds) V.intPart
    · simp

theorem foldl_frac_value (frac : List (Fin 10)) : ∀ a : Nat,
    ((frac.foldl (fun acc d => acc * 10 + d.val) a : Nat) : ℚ) * (10 : ℚ) ^ (-(frac.length : Int)) =
      (a : ℚ) + fracValue frac := by
  induction frac with
  | nil => intro a; simp [fracValue]
  | cons d ds ih =>
    intro a
    have h := ih (a * 10 + d.val)
    simp only [List.foldl_cons, List.length_cons, fracValue]
    have e : (10 : ℚ) ^ (-((ds.length + 1 : Nat) : Int)) = (10 : ℚ) ^ (-(ds.length : Int)) / 10 := by
      rw [Nat.cast_succ, neg_add, zpow_add₀ (by norm_num : (10 : ℚ) ≠ 0)]
      simp [div_eq_mul_inv]
    rw [e, ← mul_div_assoc, h]
    push_cast
    ring

theorem toRat_toNumber (V : Decimal) : V.toNumber.toRat = V.value := by
  show (if V.neg then -1 else 1) * (V.mantissa : ℚ) * (10 : ℚ) ^ (-(V.frac.length : Int)) = _
  unfold Decimal.value Decimal.mantissa
  rw [mul_assoc, foldl_frac_value]

theorem tab_not_mem_intText (T : Int) : '\t' ∉ intText T := by
  obtain ⟨-, hdig, -⟩ := toDigits_spec T.natAbs
  unfold intText
  intro h
  rcases List.mem_append.mp h with h | h
  · split_ifs at h
    · simp at h
    · simp at h
  · exact absurd (hdig _ h) (by decide)

theorem tab_not_mem_text (V : Decimal) : '\t' ∉ V.text := by
  obtain ⟨-, hdig, -⟩ := toDigits_spec V.intPart
  unfold Decimal.text
  intro h
  rcases List.mem_append.mp h with h | h
  · split_ifs at h
    · simp at h
    · simp at h
  · rcases List.mem_append.mp h with h | h
    · exact absurd (hdig _ h) (by decide)
    · split_ifs at h
      · simp at h
      · rcases List.mem_cons.mp h with h | h
        · exact absurd h (by decide)
        · exact absurd (fracText_digits V _ h) (by decide)

theorem ofInt_isNaN (z : Int) : (JSInt.ofInt z).isNaN = false := by
  unfold JSInt.ofInt
  simp only []
  split_ifs <;> rfl

theorem parseLine_text (T : Int) (V : Decimal) :
    parseLine (intText T ++ '\t' :: V.text) =
      some { date := JSInt.ofInt T, value := V.toNumber } := by
  have hs : split '\t' (intText T ++ '\t' :: V.text) = [intText T, V.text] := by
    rw [split_append_sep, split_of_not_mem _ _ (tab_not_mem_intText T),
      split_of_not_mem _ _ (tab_not_mem_text V)]
    rfl
  rw [parseLine_of_split _ _ _ _ hs, parseInt_intText, parseFloat_text,
    if_pos ⟨ofInt_isNaN T, rfl⟩]

/-! ## How the series and the starting date change -/

theorem getMetricData_eq (data : Data) (metric : String) :
    getMetricData data metric = (data.map.get metric).getD [] := by
  unfold getMetricData SeriesTable.has
  cases data.map.get metric <;> rfl

theorem _addObservation_series (data : Data) (metric : String) (o : Observation) :
    ∃ data1 p, _addObservation data metric o = Except.ok data1 ∧ p.value = o.value ∧
      data1.map.get metric = some (getMetricData data metric ++ [p]) ∧
      ∀ other, other ≠ metric → data1.map.get other = data.map.get other := by
  rw [getMetricData_eq]
  unfold _addObservation SeriesTable.has
  cases hg : data.map.get metric with
  | none =>
    refine ⟨_createMetric data metric o,
      { date := _convertDate (if isFalsy data.starting_date then
          { data with starting_date := some o.date } else data) o.date, value := o.value },
      by simp, rfl, ?_, ?_⟩
    · unfold _createMetric
      simp only [get_set, if_true]
      rfl
    · intro other ho
      unfold _createMetric
      simp only [get_set, if_neg ho]
      split_ifs <;> rfl
  | some series =>
    refine ⟨{ data with
        map := data.map.set metric
          (series ++ [{ date := _convertDate data o.date, value := o.value }]) },
      { date := _convertDate data o.date, value := o.value },
      by simp [_updateMetric, hg], rfl, ?_, ?_⟩
    · simp only [get_set, if_true]
      rfl
    · intro other ho
      simp only [get_set, if_neg ho]

theorem forEachUpdate_series (metric : String) (updates : List (List Char)) :
    ∀ data, ∃ data1 added, forEachUpdate metric data updates = Except.ok data1 ∧
      getMetricData data1 metric = getMetricData data metric ++ added ∧
      added.length = (yieldingLines updates).length ∧
      (∀ other, other ≠ metric → data1.map.get other = data.map.get other) ∧
      (yieldingLines updates = [] → data1 = data) := by
  induction updates with
  | nil =>
    intro data
    exact ⟨data, [], rfl, by simp, rfl, fun _ _ => rfl, fun _ => rfl⟩
  | cons u us ih =>
    intro data
    cases hp : parseLine u with
    | none =>
      obtain ⟨data1, added, h1, h2, h3, h4, h5⟩ := ih data
      refine ⟨data1, added, ?_, h2, ?_, h4, ?_⟩
      · rw [forEachUpdate_skip _ _ _ _ hp]; exact h1
      · simp [yieldingLines, hp] at h3 ⊢; exact h3
      · intro h; apply h5; simpa [yieldingLines, hp] using h
    | some o =>
      obtain ⟨d1, p, hd1, -, hget, hother⟩ := _addObservation_series data metric o
      obtain ⟨data1, added, h1, h2, h3, h4, -⟩ := ih d1
      refine ⟨data1, p :: added, ?_, ?_, ?_, ?_, ?_⟩
      · simp only [forEachUpdate, _applyUpdate, hp, hd1]; exact h1
      · rw [h2, getMetricData_eq d1, hget]; simp
      · simp [yieldingLines, hp] at h3 ⊢; exact h3
      · intro other ho; rw [h4 other ho, hother other ho]
      · intro h; simp [yieldingLines, hp] at h

theorem set_ne_nil (t : SeriesTable) (key : String) (v : List Observation) :
    t.set key v ≠ [] := by
  cases t with
  | nil => simp [SeriesTable.set]
  | cons e rest =>
    obtain ⟨k, v0⟩ := e
    unfold SeriesTable.set
    split_ifs <;> simp

theorem get_ne_nil (t : SeriesTable) (key : String) (v : List Observation)
    (h : t.get key = some v) : t ≠ [] := by
  rintro rfl
  simp [SeriesTable.get] at h

theorem isFalsy_none_of_false (sd : Option JSInt) (h : isFalsy sd = false) :
    ∃ d, sd = some d := by
  cases sd with
  | none => simp [isFalsy] at h
  | some d => exact ⟨d, rfl⟩

/-- What `_addObservation` stores: the date of the observation minus a starting date that is
set, at the end of the series of the metric. -/
theorem _addObservation_stores (data : Data) (metric : String) (o : Observation)
    (hd : OriginSet data) :
    ∃ data1 d, _addObservation data metric o = Except.ok data1 ∧
      data1.starting_date = some d ∧
      (isFalsy data.starting_date = false → data1.starting_date = data.starting_date) ∧
      (isFalsy data.starting_date = true →
        data1.starting_date = data.starting_date ∨ d = o.date) ∧
      data1.map = data.map.set metric
        (getMetricData data metric ++ [{ date := JSInt.sub o.date d, value := o.value }]) := by
  unfold _addObservation getMetricData SeriesTable.has
  cases hg : data.map.get metric with
  | some series =>
    obtain ⟨d, hsd⟩ := hd (get_ne_nil _ _ _ hg)
    refine ⟨{ data with
        map := data.map.set metric
          (series ++ [{ date := _convertDate data o.date, value := o.value }]) },
      d, by simp [_updateMetric, hg], hsd, fun _ => rfl, fun _ => Or.inl rfl, ?_⟩
    simp [_convertDate, hsd]
  | none =>
    cases hf : isFalsy data.starting_date with
    | true =>
      refine ⟨_createMetric data metric o, o.date, by simp, ?_, by simp, fun _ => Or.inr rfl, ?_⟩
      · simp [_createMetric, hf]
      · simp [_createMetric, hf, _convertDate]
    | false =>
      obtain ⟨d, hsd⟩ := isFalsy_none_of_false _ hf
      have hc : _createMetric data metric o =
          { data with
            map := data.map.set metric [{ date := _convertDate data o.date, value := o.value }] } := by
        simp [_createMetric, hf]
      refine ⟨_createMetric data metric o, d, by simp, ?_, fun _ => ?_, by simp, ?_⟩
      · rw [hc]; exact hsd
      · rw [hc]
      · rw [hc]; simp [_convertDate, hsd]

theorem originSet_of_some (data : Data) (d : JSInt) (h : data.starting_date = some d) :
    OriginSet data := fun _ => ⟨d, h⟩

theorem forEachUpdate_originSet (metric : String) (updates : List (List Char)) :
    ∀ data data1, forEachUpdate metric data updates = Except.ok data1 →
      OriginSet data → OriginSet data1 := by
  induction updates with
  | nil =>
    intro data data1 h hd
    rw [← Except.ok.inj h]; exact hd
  | cons u us ih =>
    intro data data1 h hd
    unfold forEachUpdate at h
    cases hu : _applyUpdate data metric u with
    | error e => rw [hu] at h; cases h
    | ok d2 =>
      rw [hu] at h
      refine ih d2 data1 h ?_
      unfold _applyUpdate at hu
      cases hp : parseLine u with
      | none => rw [hp] at hu; rw [← Except.ok.inj hu]; exact hd
      | some o =>
        rw [hp] at hu
        change _addObservation data metric o = Except.ok d2 at hu
        obtain ⟨d3, d, h3, hsd, -⟩ := _addObservation_stores data metric o hd
        rw [h3] at hu
        rw [← Except.ok.inj hu]
        exact originSet_of_some d3 d hsd

theorem reachable_originSet (data : Data) (h : Reachable data) : OriginSet data := by
  induction h with
  | initial => intro hm; exact absurd rfl hm
  | reset data B g _ _ => intro hm; exact absurd rfl hm
  | change data B g _ _ => intro hm; exact absurd rfl hm
  | update data data1 metric guid rawData _ hu ih =>
    unfold updateMetricData at hu
    split_ifs at hu
    · exact forEachUpdate_originSet _ _ _ _ hu ih
    · rw [← Except.ok.inj hu]; exact ih
  | finished data guid _ ih =>
    unfold metricsBatchFinished
    split_ifs
    · exact ih
    · exact ih

theorem sub_fin_small (a b : Int) (ha : a.natAbs ≤ 2 ^ 52) (hb : b.natAbs ≤ 2 ^ 52) :
    JSInt.sub (JSInt.fin a) (JSInt.fin b) = JSInt.fin (a - b) := by
  show JSInt.ofInt (a - b) = JSInt.fin (a - b)
  apply ofInt_small
  have : (2 : Nat) ^ 53 = 2 ^ 52 + 2 ^ 52 := by norm_num
  omega

theorem _addObservation_integerDates (data data1 : Data) (metric : String) (o : Observation)
    (n : Int) (hn : o.date = JSInt.fin n) (hb : 2 * n.natAbs < overflowThreshold)
    (h : _addObservation data metric o = Except.ok data1)
    (hd : OriginSet data) (hi : IntegerDates data) : IntegerDates data1 := by
  obtain ⟨d1, d, h1, hsd, hkeep, hset, hmap⟩ := _addObservation_stores data metric o hd
  rw [h1] at h
  have e := Except.ok.inj h
  subst e
  have hdfin : ∃ a : Int, d = JSInt.fin a ∧ 2 * a.natAbs < overflowThreshold := by
    cases hf : isFalsy data.starting_date with
    | false =>
      have := hkeep hf
      rw [hsd] at this
      exact hi.1 d this.symm
    | true =>
      rcases hset hf with h2 | h2
      · rw [hsd] at h2
        exact hi.1 d h2.symm
      · exact ⟨n, h2.trans hn, hb⟩
  obtain ⟨a, rfl, ha⟩ := hdfin
  refine ⟨?_, ?_⟩
  · intro d' hd'
    rw [hsd] at hd'
    rw [← Option.some.inj hd']
    exact ⟨a, rfl, ha⟩
  · intro key series o' hg ho'
    rw [hmap, get_set] at hg
    split_ifs at hg with hk
    · rw [← Option.some.inj hg] at ho'
      rcases List.mem_append.mp ho' with hold | hnew
      · unfold getMetricData SeriesTable.has at hold
        cases hgm : data.map.get metric with
        | none => simp [hgm] at hold
        | some s =>
          simp only [hgm, Option.isSome_some, if_true, Option.getD_some] at hold
          exact hi.2 metric s o' hgm hold
      · simp only [List.mem_singleton] at hnew
        rw [hnew, hn]
        exact sub_fin_of_bound n a hb ha
    · exact hi.2 key series o' hg ho'

theorem forEachUpdate_integerDates (metric : String) (updates : List (List Char)) :
    ∀ data data1, forEachUpdate metric data updates = Except.ok data1 →
      (∀ update ∈ updates, ∀ o, parseLine update = some o →
        ∃ n : Int, o.date = JSInt.fin n ∧ 2 * n.natAbs < overflowThreshold) →
      OriginSet data → IntegerDates data → OriginSet data1 ∧ IntegerDates data1 := by
  induction updates with
  | nil =>
    intro data data1 h _ hd hi
    rw [← Except.ok.inj h]; exact ⟨hd, hi⟩
  | cons u us ih =>
    intro data data1 h hsafe hd hi
    unfold forEachUpdate at h
    cases hu : _applyUpdate data metric u with
    | error e => rw [hu] at h; cases h
    | ok d2 =>
      rw [hu] at h
      have hrest : ∀ update ∈ us, ∀ o, parseLine update = some o →
          ∃ n : Int, o.date = JSInt.fin n ∧ 2 * n.natAbs < overflowThreshold :=
        fun update hm => hsafe update (List.mem_cons_of_mem _ hm)
      unfold _applyUpdate at hu
      cases hp : parseLine u with
      | none =>
        rw [hp] at hu
        rw [← Except.ok.inj hu] at h
        exact ih data data1 h hrest hd hi
      | some o =>
        rw [hp] at hu
        change _addObservation data metric o = Except.ok d2 at hu
        obtain ⟨n, hn, hb⟩ := hsafe u (List.mem_cons_self _ _) o hp
        obtain ⟨d3, d, h3, hsd, -⟩ := _addObservation_stores data metric o hd
        have e : d3 = d2 := by rw [h3] at hu; exact Except.ok.inj hu
        subst e
        exact ih d3 data1 h hrest (originSet_of_some d3 d hsd)
          (_addObservation_integerDates data d3 metric o n hn hb h3 hd hi)

theorem integerDates_empty (data : Data) (hs : data.starting_date = none) (hm : data.map = []) :
    IntegerDates data := by
  refine ⟨?_, ?_⟩
  · intro d hd; rw [hs] at hd; cases hd
  · intro key series o hg; rw [hm] at hg; simp [SeriesTable.get] at hg

theorem reachableSafe_invariant (data : Data) (h : ReachableSafe data) :
    OriginSet data ∧ IntegerDates data := by
  induction h with
  | initial => exact ⟨fun hm => absurd rfl hm, integerDates_empty _ rfl rfl⟩
  | reset data B g _ _ => exact ⟨fun hm => absurd rfl hm, integerDates_empty _ rfl rfl⟩
  | change data B g _ _ => exact ⟨fun hm => absurd rfl hm, integerDates_empty _ rfl rfl⟩
  | update data data1 metric guid rawData _ hsafe hu ih =>
    unfold updateMetricData at hu
    split_ifs at hu
    · exact forEachUpdate_integerDates _ _ _ _ hu hsafe ih.1 ih.2
    · rw [← Except.ok.inj hu]; exact ih
  | finished data guid _ ih =>
    unfold metricsBatchFinished
    split_ifs
    · exact ih
    · exact ih

theorem reachable_of_safe (data : Data) (h : ReachableSafe data) : Reachable data := by
  induction h with
  | initial => exact Reachable.initial
  | reset data B g _ ih => exact Reachable.reset data B g ih
  | change data B g _ ih => exact Reachable.change data B g ih
  | update data data1 metric guid rawData _ _ hu ih =>
    exact Reachable.update data data1 metric guid rawData ih hu
  | finished data guid _ ih => exact Reachable.finished data guid ih

theorem forEachUpdate_keeps_origin (metric : String) (updates : List (List Char)) :
    ∀ data data1, forEachUpdate metric data updates = Except.ok data1 →
      isFalsy data.starting_date = false → data1.starting_date = data.starting_date := by
  induction updates with
  | nil =>
    intro data data1 h _
    rw [← Except.ok.inj h]
  | cons u us ih =>
    intro data data1 h hf
    unfold forEachUpdate at h
    cases hu : _applyUpdate data metric u with
    | error e => rw [hu] at h; cases h
    | ok d2 =>
      rw [hu] at h
      unfold _applyUpdate at hu
      cases hp : parseLine u with
      | none =>
        rw [hp] at hu
        rw [← Except.ok.inj hu] at h
        exact ih data data1 h hf
      | some o =>
        rw [hp] at hu
        change _addObservation data metric o = Except.ok d2 at hu
        obtain ⟨d, hsd⟩ := isFalsy_none_of_false _ hf
        obtain ⟨d3, d', h3, -, hkeep, -⟩ :=
          _addObservation_stores data metric o (originSet_of_some data d hsd)
        have e : d3 = d2 := by rw [h3] at hu; exact Except.ok.inj hu
        subst e
        have hk := hkeep hf
        rw [← hk]
        exact ih d3 data1 h (by rw [hk]; exact hf)

/-- While the starting date is set and not zero, `updateMetricData` leaves it as it is. -/
theorem updateMetricData_keeps_origin (data data1 : Data) (metric : String)
    (guid : Option String) (rawData : String)
    (h : updateMetricData data metric guid rawData = Except.ok data1)
    (hf : isFalsy data.starting_date = false) : data1.starting_date = data.starting_date := by
  unfold updateMetricData at h
  split_ifs at h
  · exact forEachUpdate_keeps_origin _ _ _ _ h hf
  · rw [← Except.ok.inj h]

theorem demoData_reachableSafe : ReachableSafe demoData := by
  refine ReachableSafe.update initialData demoData "cpu" none "1000\t0.5\n1001\t0.7"
    ReachableSafe.initial ?_ (by decide)
  intro update hm o ho
  have hbig : 18014398509481984 ≤ overflowThreshold := by
    have := overflowThreshold_large
    norm_num at this
    exact this
  have hs : split '\n' "1000\t0.5\n1001\t0.7".toList
      = ["1000\t0.5".toList, "1001\t0.7".toList] := by decide
  have p1 : parseLine "1000\t0.5".toList
      = some { date := JSInt.fin 1000, value := JSFloat.lit false 5 (-1) } := by decide
  have p2 : parseLine "1001\t0.7".toList
      = some { date := JSInt.fin 1001, value := JSFloat.lit false 7 (-1) } := by decide
  rw [hs] at hm
  simp only [List.mem_cons, List.mem_singleton, List.not_mem_nil, or_false] at hm
  rcases hm with rfl | rfl
  · rw [p1] at ho
    rw [← Option.some.inj ho]
    exact ⟨1000, rfl, by omega⟩
  · rw [p2] at ho
    rw [← Option.some.inj ho]
    exact ⟨1001, rfl, by omega⟩

set_option maxRecDepth 100000 in
set_option exponentiation.threshold 2048 in
theorem overflow_step :
    updateMetricData initialData "a" none overflowText = Except.ok overflowData := by
  decide

set_option maxRecDepth 100000 in
set_option exponentiation.threshold 2048 in
theorem overflow_line :
    parseLine overflowText.toList =
      some { date := JSInt.inf false, value := JSFloat.lit false 1 0 } := by
  decide

set_option maxRecDepth 100000 in
set_option exponentiation.threshold 2048 in
theorem overflow_after_reset :
    updateMetricData (resetSubscriptions initialData 1 "T") "a" (some "T") overflowText =
      Except.ok overflowAnchorData := by
  decide

/-! ## The claims -/

/-- C1, evaluated where the code departs from it: after a reset, the line `0\t1` for
metric `a` fixes the starting date to 0; the later line `5\t1` for the new metric `b`
finds that starting date falsy, moves it to 5 and stores the relative date 0 for `b`,
where the claim asks for the origin 0 to stay and for the relative date 5 - 0. -/
theorem zero_origin_is_replaced :
    (updateMetricData (resetSubscriptions initialData 1 "T") "a" (some "T") "0\t1").bind
        (fun data1 => updateMetricData data1 "b" (some "T") "5\t1") =
      Except.ok ({ benchId := some 1, guid := some "T", is_loaded := false,
                   starting_date := some (JSInt.fin 5),
                   map := [("a", [{ date := JSInt.fin 0, value := JSFloat.lit false 1 0 }]),
                           ("b", [{ date := JSInt.fin 0, value := JSFloat.lit false 1 0 }])] } :
        Data) := by
  decide

/-- C2: `updateMetricData` called with a guid other than the current one returns the
store as it was (table, starting date, bench id, guid and loaded flag), and raises
nothing. -/
theorem updateMetricData_other_guid (data : Data) (metric : String) (guid : Option String)
    (rawData : String) (h : guid ≠ data.guid) :
    updateMetricData data metric guid rawData = Except.ok data :=
  updateMetricData_stale data metric guid rawData h

theorem updateMetricData_other_guid_witness :
    some "stale" ≠ (resetSubscriptions initialData 7 "T").guid ∧
      updateMetricData (resetSubscriptions initialData 7 "T") "cpu" (some "stale") "2000\t1.0" =
        Except.ok (resetSubscriptions initialData 7 "T") :=
  ⟨by decide, updateMetricData_other_guid _ "cpu" (some "stale") "2000\t1.0" (by decide)⟩

/-- C3 as stated fails on the line `1\tInfinity`: it has two fields and yields an
observation, yet its second field parses as an infinity, not as a finite number. -/
theorem parseLine_infinite_value :
    ¬ ((parseLine "1\tInfinity".toList).isSome = true ↔
        ∃ f0 f1 rest, split '\t' "1\tInfinity".toList = f0 :: f1 :: rest ∧
          (parseInt f0).isNaN = false ∧ (parseFloat f1).isFinite = true) := by
  intro h
  obtain ⟨f0, f1, rest, hs, -, hfin⟩ := h.mp (by decide)
  have hsplit : split '\t' "1\tInfinity".toList = ["1".toList, "Infinity".toList] := by decide
  rw [hsplit] at hs
  injection hs with _ hs
  injection hs with h1 _
  subst h1
  exact absurd hfin (by decide)

/-- C3, amended: a line yields an observation exactly when it has at least two fields
separated by tabs, `Number.parseInt` of the first is not `NaN` and `Number.parseFloat` of
the second is not `NaN` (an infinity is accepted); the observation is then made of these
two numbers, and there is never more than one. -/
theorem parseLine_isSome_iff (line : List Char) :
    ((parseLine line).isSome = true ↔
      ∃ f0 f1 rest, split '\t' line = f0 :: f1 :: rest ∧
        (parseInt f0).isNaN = false ∧ (parseFloat f1).isNaN = false) ∧
    (∀ o, parseLine line = some o ↔
      ∃ f0 f1 rest, split '\t' line = f0 :: f1 :: rest ∧
        (parseInt f0).isNaN = false ∧ (parseFloat f1).isNaN = false ∧
        o = { date := parseInt f0, value := parseFloat f1 }) := by
  have key : ∀ o, parseLine line = some o ↔
      ∃ f0 f1 rest, split '\t' line = f0 :: f1 :: rest ∧
        (parseInt f0).isNaN = false ∧ (parseFloat f1).isNaN = false ∧
        o = { date := parseInt f0, value := parseFloat f1 } := by
    intro o
    rcases hs : split '\t' line with _ | ⟨f0, _ | ⟨f1, rest⟩⟩
    · simp [parseLine, hs]
    · simp [parseLine, hs]
    · rw [parseLine_of_split line f0 f1 rest hs]
      constructor
      · intro h
        split_ifs at h with hc
        exact ⟨f0, f1, rest, rfl, hc.1, hc.2, (Option.some.inj h).symm⟩
      · rintro ⟨g0, g1, grest, hg, hd, hv, rfl⟩
        injection hg with e0 hg
        injection hg with e1 _
        subst e0 e1
        rw [if_pos ⟨hd, hv⟩]
  refine ⟨?_, key⟩
  rw [Option.isSome_iff_exists]
  constructor
  · rintro ⟨o, ho⟩
    obtain ⟨f0, f1, rest, hs, hd, hv, -⟩ := (key o).mp ho
    exact ⟨f0, f1, rest, hs, hd, hv⟩
  · rintro ⟨f0, f1, rest, hs, hd, hv⟩
    exact ⟨_, (key _).mpr ⟨f0, f1, rest, hs, hd, hv, rfl⟩⟩

/-- C4 as stated fails on the integer 2^53 + 1 = 9007199254740993: no double has this
value, `Number.parseInt` of its text is 9007199254740992, and that is the date of the
observation. -/
theorem parseLine_text_large_integer :
    parseLine (intText 9007199254740993 ++ '\t' :: Decimal.text ⟨false, 0, [5]⟩) =
        some { date := JSInt.fin 9007199254740992, value := JSFloat.lit false 5 (-1) } ∧
      parseLine (intText 9007199254740993 ++ '\t' :: Decimal.text ⟨false, 0, [5]⟩) ≠
        some { date := JSInt.fin 9007199254740993,
               value := Decimal.toNumber ⟨false, 0, [5]⟩ } := by
  decide

/-- C4, amended: for every integer `T` of magnitude at most 2^53 and every finite decimal
`V`, the line made of the text of `T`, one tab and the text of `V` yields the observation
of date `T` and of value the Number that `V` writes, whose mathematical value is that of
`V`. -/
theorem parseLine_text_of_integer (T : Int) (V : Decimal) (hT : T.natAbs ≤ 2 ^ 53) :
    parseLine (intText T ++ '\t' :: V.text) =
        some { date := JSInt.fin T, value := V.toNumber } ∧
      V.toNumber.isNaN = false ∧ V.toNumber.toRat = V.value := by
  refine ⟨?_, rfl, toRat_toNumber V⟩
  rw [parseLine_text, ofInt_small T hT]

theorem parseLine_text_of_integer_witness :
    (1000 : Int).natAbs ≤ 2 ^ 53 ∧
      (parseLine (intText 1000 ++ '\t' :: Decimal.text ⟨false, 0, [5]⟩) =
          some { date := JSInt.fin 1000, value := Decimal.toNumber ⟨false, 0, [5]⟩ } ∧
        (Decimal.toNumber ⟨false, 0, [5]⟩).isNaN = false ∧
        (Decimal.toNumber ⟨false, 0, [5]⟩).toRat = Decimal.value ⟨false, 0, [5]⟩) :=
  ⟨by decide, parseLine_text_of_integer 1000 ⟨false, 0, [5]⟩ (by decide)⟩

/-- C5: a line that yields no observation does not touch its siblings. For a line `x`
without a newline that yields nothing, a call of `updateMetricData` with the current guid
returns the same result whether or not `x` is put in as one more line: before the text
`b`, between the texts `a` and `b`, or after the text `a`. -/
theorem updateMetricData_skips_line (data : Data) (metric : String) (x a b : String)
    (hx : '\n' ∉ x.toList) (hnone : parseLine x.toList = none) :
    updateMetricData data metric data.guid (x ++ "\n" ++ b) =
        updateMetricData data metric data.guid b ∧
      updateMetricData data metric data.guid (a ++ "\n" ++ x ++ "\n" ++ b) =
        updateMetricData data metric data.guid (a ++ "\n" ++ b) ∧
      updateMetricData data metric data.guid (a ++ "\n" ++ x) =
        updateMetricData data metric data.guid a := by
  have hsx : split '\n' x.toList = [x.toList] := split_of_not_mem _ _ hx
  have e1 : (a ++ "\n" ++ x ++ "\n" ++ b).toList
      = a.toList ++ '\n' :: (x.toList ++ '\n' :: b.toList) := by simp
  have e2 : (a ++ "\n" ++ x).toList = a.toList ++ '\n' :: x.toList := by simp
  simp only [updateMetricData, if_true, _updateData, toList_append_newline, e1, e2,
    split_append_sep, hsx]
  refine ⟨?_, ?_, ?_⟩
  · exact forEachUpdate_skip metric data _ _ hnone
  · rw [forEachUpdate_append, forEachUpdate_append]
    congr 1
    funext data1
    exact forEachUpdate_skip metric data1 _ _ hnone
  · obtain ⟨d1, h1, -⟩ := forEachUpdate_ok metric data (split '\n' a.toList)
    rw [forEachUpdate_append, h1]
    show forEachUpdate metric d1 [x.toList] = Except.ok d1
    rw [forEachUpdate_skip metric d1 _ _ hnone]
    rfl

theorem updateMetricData_skips_line_witness :
    ('\n' ∉ "abc\t1".toList ∧ parseLine "abc\t1".toList = none) ∧
      (updateMetricData initialData "cpu" initialData.guid ("abc\t1" ++ "\n" ++ "1002\t0.9") =
          updateMetricData initialData "cpu" initialData.guid "1002\t0.9" ∧
        updateMetricData initialData "cpu" initialData.guid
            ("1000\t0.5" ++ "\n" ++ "abc\t1" ++ "\n" ++ "1002\t0.9") =
          updateMetricData initialData "cpu" initialData.guid ("1000\t0.5" ++ "\n" ++ "1002\t0.9") ∧
        updateMetricData initialData "cpu" initialData.guid ("1000\t0.5" ++ "\n" ++ "abc\t1") =
          updateMetricData initialData "cpu" initialData.guid "1000\t0.5") :=
  ⟨⟨by decide, by decide⟩,
    updateMetricData_skips_line initialData "cpu" "abc\t1" "1000\t0.5" "1002\t0.9"
      (by decide) (by decide)⟩

/-- C6: the lines are applied one by one in their order, so a batch can be cut at a
newline. With the current guid, `updateMetricData` on `a ++ "\n" ++ b` gives what
`updateMetricData` on `a` followed by `updateMetricData` on `b` gives. -/
theorem updateMetricData_append (data : Data) (metric : String) (a b : String) :
    updateMetricData data metric data.guid (a ++ "\n" ++ b) =
      (updateMetricData data metric data.guid a).bind
        (fun data1 => updateMetricData data1 metric data.guid b) := by
  simp only [updateMetricData, if_true, _updateData, toList_append_newline, split_append_sep,
    forEachUpdate_append]
  obtain ⟨d1, h1, g1, -⟩ := forEachUpdate_ok metric data (split '\n' a.toList)
  rw [h1]
  show forEachUpdate metric d1 (split '\n' b.toList) =
    if d1.guid = data.guid then forEachUpdate metric d1 (split '\n' b.toList) else Except.ok d1
  rw [if_pos g1]

/-- C7: after `resetSubscriptions` with bench id `B`, and likewise after
`changeCurrentBench` with bench id `B`, from any store: `getMetricData` is empty for every
metric, `getCurrentBenchId` is `B`, and the starting date is unset. -/
theorem session_control_clears (data : Data) (B : Nat) (guid metric : String) :
    (getMetricData (resetSubscriptions data B guid) metric = [] ∧
      getCurrentBenchId (resetSubscriptions data B guid) = some B ∧
      (resetSubscriptions data B guid).starting_date = none) ∧
    (getMetricData (changeCurrentBench data B guid) metric = [] ∧
      getCurrentBenchId (changeCurrentBench data B guid) = some B ∧
      (changeCurrentBench data B guid).starting_date = none) := by
  simp [getMetricData, resetSubscriptions, changeCurrentBench, _clearData, getCurrentBenchId,
    SeriesTable.has, SeriesTable.get]

/-- C8: in every store that the operations produce, `getMetricData` answers the stored
series when the metric is in the table and the empty sequence otherwise, and
`getMetricMaxDate` answers, without raising, the date of the last element of that series
when it is not empty and 0 otherwise. -/
theorem read_accessors (data : Data) (h : Reachable data) (metric : String) :
    getMetricData data metric =
        (match data.map.get metric with
          | some series => series
          | none => []) ∧
      getMetricMaxDate data metric =
        Except.ok (match (getMetricData data metric).getLast? with
          | some last => last.date
          | none => JSInt.fin 0) := by
  have hne := reachable_nonEmpty data h
  cases hg : data.map.get metric with
  | none => simp [getMetricData, getMetricMaxDate, SeriesTable.has, hg]
  | some series =>
    have := hne metric series hg
    obtain ⟨last, hl⟩ : ∃ last, series.getLast? = some last := by
      cases hs : series.getLast? with
      | none => exact absurd (List.getLast?_eq_none_iff.mp hs) this
      | some l => exact ⟨l, rfl⟩
    simp [getMetricData, getMetricMaxDate, SeriesTable.has, hg, hl]

theorem read_accessors_witness :
    Reachable demoData ∧
      (getMetricData demoData "cpu" =
          (match demoData.map.get "cpu" with
            | some series => series
            | none => []) ∧
        getMetricMaxDate demoData "cpu" =
          Except.ok (match (getMetricData demoData "cpu").getLast? with
            | some last => last.date
            | none => JSInt.fin 0)) ∧
      getMetricData demoData "cpu" = demoSeries ∧
      getMetricMaxDate demoData "cpu" = Except.ok (JSInt.fin 1) ∧
      getMetricMaxDate demoData "mem" = Except.ok (JSInt.fin 0) :=
  ⟨demoData_reachable, read_accessors demoData demoData_reachable "cpu", by decide, by decide,
    by decide⟩

/-- C9 as stated fails on a timestamp too large for a double: after `resetSubscriptions`,
the line of `overflowText` (timestamp 1 followed by 309 zeros) yields the first observation
accepted, of date `Infinity`; the element stored for metric `a` has the relative date
`Infinity - Infinity = NaN`, not 0, and `getMetricMaxDate` of `a` is `NaN`, not 0. -/
theorem infinite_anchor :
    parseLine overflowText.toList =
        some { date := JSInt.inf false, value := JSFloat.lit false 1 0 } ∧
      updateMetricData (resetSubscriptions initialData 1 "T") "a" (some "T") overflowText =
        Except.ok overflowAnchorData ∧
      getMetricData overflowAnchorData "a" =
        [{ date := JSInt.nan, value := JSFloat.lit false 1 0 }] ∧
      getMetricData overflowAnchorData "a" ≠
        [{ date := JSInt.fin 0, value := JSFloat.lit false 1 0 }] ∧
      getMetricMaxDate overflowAnchorData "a" = Except.ok JSInt.nan ∧
      getMetricMaxDate overflowAnchorData "a" ≠ Except.ok (JSInt.fin 0) :=
  ⟨overflow_line, overflow_after_reset, by decide, by decide, by decide, by decide⟩

/-- C9, amended: `getMetricMaxDate` is 0 for a metric that is not in the table, as is every
metric in a session just opened by `resetSubscriptions` or by `changeCurrentBench`. When
the first observation added in such a session is `(d, v)` for metric `m` and `d` is finite
(an integer), it fixes the starting date, the series of `m` is exactly one element of date
0 and value `v`, and `getMetricMaxDate` of `m` is 0 again. When `d` is an infinity, it
fixes the starting date too, and the series of `m` is one element of date `NaN` and value
`v`, and `getMetricMaxDate` of `m` is `NaN`. -/
theorem first_observation_is_anchor (data data0 : Data) (B : Nat) (guid metric : String)
    (d : Int) (neg : Bool) (v : JSFloat) :
    (data0.map.has metric = false → getMetricMaxDate data0 metric = Except.ok (JSInt.fin 0)) ∧
    (getMetricMaxDate (resetSubscriptions data B guid) metric = Except.ok (JSInt.fin 0) ∧
      ∃ data1,
        _addObservation (resetSubscriptions data B guid) metric
            { date := JSInt.fin d, value := v } = Except.ok data1 ∧
          data1.starting_date = some (JSInt.fin d) ∧
          getMetricData data1 metric = [{ date := JSInt.fin 0, value := v }] ∧
          getMetricMaxDate data1 metric = Except.ok (JSInt.fin 0)) ∧
    (getMetricMaxDate (changeCurrentBench data B guid) metric = Except.ok (JSInt.fin 0) ∧
      ∃ data1,
        _addObservation (changeCurrentBench data B guid) metric
            { date := JSInt.fin d, value := v } = Except.ok data1 ∧
          data1.starting_date = some (JSInt.fin d) ∧
          getMetricData data1 metric = [{ date := JSInt.fin 0, value := v }] ∧
          getMetricMaxDate data1 metric = Except.ok (JSInt.fin 0)) ∧
    (∃ data1,
      _addObservation (resetSubscriptions data B guid) metric
          { date := JSInt.inf neg, value := v } = Except.ok data1 ∧
        data1.starting_date = some (JSInt.inf neg) ∧
        getMetricData data1 metric = [{ date := JSInt.nan, value := v }] ∧
        getMetricMaxDate data1 metric = Except.ok JSInt.nan) ∧
    (∃ data1,
      _addObservation (changeCurrentBench data B guid) metric
          { date := JSInt.inf neg, value := v } = Except.ok data1 ∧
        data1.starting_date = some (JSInt.inf neg) ∧
        getMetricData data1 metric = [{ date := JSInt.nan, value := v }] ∧
        getMetricMaxDate data1 metric = Except.ok JSInt.nan) := by
  refine ⟨?_, ⟨?_, _, rfl, ?_⟩, ⟨?_, _, rfl, ?_⟩, ⟨_, rfl, ?_⟩, ⟨_, rfl, ?_⟩⟩
  · intro h
    simp [getMetricMaxDate, h]
  all_goals
    simp [resetSubscriptions, changeCurrentBench, _clearData, SeriesTable.has,
      SeriesTable.get, _createMetric, isFalsy, _convertDate, JSInt.sub, SeriesTable.set,
      ofInt_zero, getMetricData, getMetricMaxDate]

theorem first_observation_is_anchor_witness :
    demoData.map.has "mem" = false ∧
      getMetricMaxDate demoData "mem" = Except.ok (JSInt.fin 0) ∧
      getMetricMaxDate (resetSubscriptions demoData 2 "T") "mem" = Except.ok (JSInt.fin 0) ∧
      _addObservation (resetSubscriptions demoData 2 "T") "mem"
          { date := JSInt.fin 1000, value := JSFloat.lit false 5 (-1) } =
        Except.ok { resetSubscriptions demoData 2 "T" with
          starting_date := some (JSInt.fin 1000),
          map := [("mem", [{ date := JSInt.fin 0, value := JSFloat.lit false 5 (-1) }])] } :=
  ⟨by decide,
    (first_observation_is_anchor demoData demoData 2 "T" "mem" 1000 false
      (JSFloat.lit false 5 (-1))).1 (by decide),
    (first_observation_is_anchor demoData demoData 2 "T" "mem" 1000 false
      (JSFloat.lit false 5 (-1))).2.1.1,
    by decide⟩

/-- C10, the scenario: in a fresh session with guid `T` (no starting date, empty table),
`updateMetricData` on `cpu` with `1000\t0.5\n1001\t0.7` makes the series of `cpu` the
two elements (0, 0.5) and (1, 0.7) and `getMetricMaxDate` 1; then the text
`abc\t1\n1002\t0.9`, whose first line yields nothing, adds exactly the element
(2, 0.9); then a call with the guid `wrong-token` leaves the store, and so the series,
as it was. -/
theorem scenario_cpu (s0 : Data) (T : String) (hguid : s0.guid = some T)
    (hdate : s0.starting_date = none) (hmap : s0.map = []) (hT : T ≠ "wrong-token") :
    ∃ s1 s2,
      updateMetricData s0 "cpu" (some T) "1000\t0.5\n1001\t0.7" = Except.ok s1 ∧
      getMetricData s1 "cpu" =
        [{ date := JSInt.fin 0, value := JSFloat.lit false 5 (-1) },
         { date := JSInt.fin 1, value := JSFloat.lit false 7 (-1) }] ∧
      getMetricMaxDate s1 "cpu" = Except.ok (JSInt.fin 1) ∧
      parseLine "abc\t1".toList = none ∧
      updateMetricData s1 "cpu" (some T) "abc\t1\n1002\t0.9" = Except.ok s2 ∧
      getMetricData s2 "cpu" =
        getMetricData s1 "cpu" ++ [{ date := JSInt.fin 2, value := JSFloat.lit false 9 (-1) }] ∧
      updateMetricData s2 "cpu" (some "wrong-token") "2000\t1.0" = Except.ok s2 := by
  have hs1 : split '\n' "1000\t0.5\n1001\t0.7".toList
      = ["1000\t0.5".toList, "1001\t0.7".toList] := by decide
  have hs2 : split '\n' "abc\t1\n1002\t0.9".toList
      = ["abc\t1".toList, "1002\t0.9".toList] := by decide
  have p1 : parseLine "1000\t0.5".toList
      = some { date := JSInt.fin 1000, value := JSFloat.lit false 5 (-1) } := by decide
  have p2 : parseLine "1001\t0.7".toList
      = some { date := JSInt.fin 1001, value := JSFloat.lit false 7 (-1) } := by decide
  have p3 : parseLine "abc\t1".toList = none := by decide
  have p4 : parseLine "1002\t0.9".toList
      = some { date := JSInt.fin 1002, value := JSFloat.lit false 9 (-1) } := by decide
  refine ⟨{ s0 with
      starting_date := some (JSInt.fin 1000),
      map := [("cpu", [{ date := JSInt.fin 0, value := JSFloat.lit false 5 (-1) },
                       { date := JSInt.fin 1, value := JSFloat.lit false 7 (-1) }])] },
    { s0 with
      starting_date := some (JSInt.fin 1000),
      map := [("cpu", [{ date := JSInt.fin 0, value := JSFloat.lit false 5 (-1) },
                       { date := JSInt.fin 1, value := JSFloat.lit false 7 (-1) },
                       { date := JSInt.fin 2, value := JSFloat.lit false 9 (-1) }])] },
    ?_, ?_, ?_, p3, ?_, ?_, ?_⟩
  · unfold updateMetricData _updateData
    rw [if_pos hguid, hs1]
    simp only [forEachUpdate, _applyUpdate, p1, p2]
    simp [_addObservation, SeriesTable.has, SeriesTable.get, _createMetric, _updateMetric,
      hmap, hdate, isFalsy, _convertDate, JSInt.sub, SeriesTable.set, ofInt_zero, ofInt_one]
  · simp [getMetricData, SeriesTable.has, SeriesTable.get]
  · simp [getMetricMaxDate, SeriesTable.has, SeriesTable.get]
  · unfold updateMetricData _updateData
    rw [if_pos hguid, hs2]
    simp only [forEachUpdate, _applyUpdate, p3, p4]
    simp [_addObservation, SeriesTable.has, SeriesTable.get, _updateMetric,
      _convertDate, JSInt.sub, SeriesTable.set, ofInt_two]
  · simp [getMetricData, SeriesTable.has, SeriesTable.get]
  · apply updateMetricData_stale
    simp only [hguid]
    intro h
    exact hT (Option.some.inj h).symm

theorem scenario_cpu_witness :
    ∃ s1 s2,
      updateMetricData (resetSubscriptions initialData 1 "T") "cpu" (some "T")
        "1000\t0.5\n1001\t0.7" = Except.ok s1 ∧
      getMetricData s1 "cpu" =
        [{ date := JSInt.fin 0, value := JSFloat.lit false 5 (-1) },
         { date := JSInt.fin 1, value := JSFloat.lit false 7 (-1) }] ∧
      getMetricMaxDate s1 "cpu" = Except.ok (JSInt.fin 1) ∧
      parseLine "abc\t1".toList = none ∧
      updateMetricData s1 "cpu" (some "T") "abc\t1\n1002\t0.9" = Except.ok s2 ∧
      getMetricData s2 "cpu" =
        getMetricData s1 "cpu" ++ [{ date := JSInt.fin 2, value := JSFloat.lit false 9 (-1) }] ∧
      updateMetricData s2 "cpu" (some "wrong-token") "2000\t1.0" = Except.ok s2 :=
  scenario_cpu (resetSubscriptions initialData 1 "T") "T" rfl rfl rfl (by decide)

/-- C11, evaluated where the code departs from it: after a reset and the line `0\t1` for
metric `a` the starting date is set (to 0), and the next `updateMetricData`, with the line
`5\t1` for the new metric `b`, changes it to 5, where the claim has no `updateMetricData`
change a starting date that is set. -/
theorem set_origin_changed_by_update :
    updateMetricData (resetSubscriptions initialData 1 "T") "a" (some "T") "0\t1" =
        Except.ok zeroOriginData ∧
      zeroOriginData.starting_date = some (JSInt.fin 0) ∧
      (updateMetricData zeroOriginData "b" (some "T") "5\t1").map Data.starting_date =
        Except.ok (some (JSInt.fin 5)) := by
  decide

/-- C12: series only grow at the end. After `updateMetricData` for metric `m`, with any
guid and text, the series of `m` is the former series of `m` followed by the elements
added, and the series of every other metric is the former one. -/
theorem series_append_only (data : Data) (metric : String) (guid : Option String)
    (rawData : String) :
    ∃ data1 added, updateMetricData data metric guid rawData = Except.ok data1 ∧
      getMetricData data1 metric = getMetricData data metric ++ added ∧
      ∀ other, other ≠ metric → getMetricData data1 other = getMetricData data other := by
  unfold updateMetricData _updateData
  split_ifs
  · obtain ⟨data1, added, h1, h2, -, h4, -⟩ :=
      forEachUpdate_series metric (split '\n' rawData.toList) data
    refine ⟨data1, added, h1, h2, ?_⟩
    intro other ho
    rw [getMetricData_eq, getMetricData_eq, h4 other ho]
  · exact ⟨data, [], rfl, by simp, fun _ _ => rfl⟩

theorem series_append_only_witness :
    "mem" ≠ "cpu" ∧
      ∃ data1 added, updateMetricData demoData "cpu" none "1002\t0.9" = Except.ok data1 ∧
        getMetricData data1 "cpu" = getMetricData demoData "cpu" ++ added ∧
        getMetricData data1 "mem" = getMetricData demoData "mem" := by
  obtain ⟨data1, added, h1, h2, h3⟩ := series_append_only demoData "cpu" none "1002\t0.9"
  exact ⟨by decide, data1, added, h1, h2, h3 "mem" (by decide)⟩

/-- C13: `metricsBatchFinished` with the current guid sets the loaded flag to true; with any
other guid it returns the store as it was; in both cases the bench id, the guid, the
starting date and the table are unchanged. -/
theorem metricsBatchFinished_spec (data : Data) (guid : Option String) :
    (guid = data.guid → (metricsBatchFinished data guid).is_loaded = true) ∧
    (guid ≠ data.guid → metricsBatchFinished data guid = data) ∧
    (metricsBatchFinished data guid).benchId = data.benchId ∧
    (metricsBatchFinished data guid).guid = data.guid ∧
    (metricsBatchFinished data guid).starting_date = data.starting_date ∧
    (metricsBatchFinished data guid).map = data.map := by
  unfold metricsBatchFinished
  refine ⟨?_, ?_, ?_, ?_, ?_, ?_⟩
  · intro h; rw [if_pos h.symm]
  · intro h; rw [if_neg (fun e => h e.symm)]
  all_goals split_ifs <;> rfl

theorem metricsBatchFinished_spec_witness :
    (none = initialData.guid ∧ (metricsBatchFinished initialData none).is_loaded = true) ∧
      (some "stale" ≠ initialData.guid ∧
        metricsBatchFinished initialData (some "stale") = initialData) :=
  ⟨⟨rfl, (metricsBatchFinished_spec initialData none).1 rfl⟩,
    ⟨by decide, (metricsBatchFinished_spec initialData (some "stale")).2.1 (by decide)⟩⟩

/-- C14: `resetSubscriptions` leaves the loaded flag as it was, and `changeCurrentBench`
sets it to false; both take the bench id (and `changeCurrentBench` the guid) handed to
them, empty the table and unset the starting date. -/
theorem session_control_loaded (data : Data) (B : Nat) (guid : String) :
    (resetSubscriptions data B guid).is_loaded = data.is_loaded ∧
    resetSubscriptions data B guid =
      { benchId := some B, guid := some guid, is_loaded := data.is_loaded,
        starting_date := none, map := [] } ∧
    changeCurrentBench data B guid =
      { benchId := some B, guid := some guid, is_loaded := false,
        starting_date := none, map := [] } :=
  ⟨rfl, rfl, rfl⟩

/-- C15: `isDataLoaded` answers true for every store, whatever the loaded flag: so for the
initial store and right after `changeCurrentBench`, where the flag is false. -/
theorem isDataLoaded_always (data : Data) (B : Nat) (guid : String) :
    isDataLoaded data = true ∧
    (initialData.is_loaded = false ∧ isDataLoaded initialData = true) ∧
    ((changeCurrentBench data B guid).is_loaded = false ∧
      isDataLoaded (changeCurrentBench data B guid) = true) :=
  ⟨rfl, ⟨rfl, rfl⟩, ⟨rfl, rfl⟩⟩

/-- C16: fields after the second are ignored. For a line `l` with at least two fields
separated by tabs and any text `x`, the line `l`, a tab and `x` yields what `l` yields, and
`_applyUpdate` does on it what it does on `l`. -/
theorem parseLine_trailing_fields (data : Data) (metric : String) (l x : List Char)
    (h : 2 ≤ (split '\t' l).length) :
    parseLine (l ++ '\t' :: x) = parseLine l ∧
      _applyUpdate data metric (l ++ '\t' :: x) = _applyUpdate data metric l := by
  have key : parseLine (l ++ '\t' :: x) = parseLine l := by
    rcases hs : split '\t' l with _ | ⟨f0, _ | ⟨f1, rest⟩⟩
    · rw [hs] at h; simp at h
    · rw [hs] at h; simp at h
    · have hs2 : split '\t' (l ++ '\t' :: x) = f0 :: f1 :: (rest ++ split '\t' x) := by
        rw [split_append_sep, hs]; rfl
      rw [parseLine_of_split _ _ _ _ hs, parseLine_of_split _ _ _ _ hs2]
  exact ⟨key, by unfold _applyUpdate; rw [key]⟩

theorem parseLine_trailing_fields_witness :
    2 ≤ (split '\t' "1000\t0.5".toList).length ∧
      (parseLine ("1000\t0.5".toList ++ '\t' :: "extra\tfields".toList) =
          parseLine "1000\t0.5".toList ∧
        _applyUpdate initialData "cpu" ("1000\t0.5".toList ++ '\t' :: "extra\tfields".toList) =
          _applyUpdate initialData "cpu" "1000\t0.5".toList) :=
  ⟨by decide, parseLine_trailing_fields initialData "cpu" "1000\t0.5".toList
    "extra\tfields".toList (by decide)⟩

/-- C17: in every store that the operations produce from the initial one, no stored series
is empty; so `getMetricMaxDate` finds the element at index `m.length - 1` and raises
nothing, and `getMetricData` is empty exactly for the metrics that are not in the table. -/
theorem reachable_series_nonempty (data : Data) (h : Reachable data) (metric : String) :
    (∀ series, data.map.get metric = some series →
      series ≠ [] ∧ series.length - 1 < series.length) ∧
    (∃ d, getMetricMaxDate data metric = Except.ok d) ∧
    (getMetricData data metric = [] ↔ data.map.has metric = false) := by
  have hne := reachable_nonEmpty data h
  refine ⟨?_, ?_, ?_⟩
  · intro series hg
    have := hne metric series hg
    exact ⟨this, Nat.sub_lt (List.length_pos.mpr this) Nat.one_pos⟩
  · unfold getMetricMaxDate SeriesTable.has
    cases hg : data.map.get metric with
    | none => exact ⟨JSInt.fin 0, by simp⟩
    | some series =>
      have := hne metric series hg
      cases hl : series.getLast? with
      | none => exact absurd (List.getLast?_eq_none_iff.mp hl) this
      | some last => exact ⟨last.date, by simp [hl]⟩
  · rw [getMetricData_eq]
    unfold SeriesTable.has
    cases hg : data.map.get metric with
    | none => simp
    | some series => simpa using hne metric series hg

theorem reachable_series_nonempty_witness :
    Reachable demoData ∧
      ((∀ series, demoData.map.get "cpu" = some series →
          series ≠ [] ∧ series.length - 1 < series.length) ∧
        (∃ d, getMetricMaxDate demoData "cpu" = Except.ok d) ∧
        (getMetricData demoData "cpu" = [] ↔ demoData.map.has "cpu" = false)) :=
  ⟨demoData_reachable, reachable_series_nonempty demoData demoData_reachable "cpu"⟩

/-- C18 as stated fails on a timestamp too large for a double: the initial store after
`updateMetricData` with a line whose timestamp is 1 followed by 309 zeros can occur, its
table holds the metric `a` and its starting date is set, yet it is an infinity, and the
relative date stored is `NaN`, not an integer. -/
theorem overflow_relative_date :
    Reachable overflowData ∧ overflowData.map.has "a" = true ∧
      overflowData.starting_date = some (JSInt.inf false) ∧
      getMetricData overflowData "a" =
        [{ date := JSInt.nan, value := JSFloat.lit false 1 0 }] ∧
      ¬ ∀ o ∈ getMetricData overflowData "a", ∃ n : Int, o.date = JSInt.fin n := by
  refine ⟨Reachable.update initialData overflowData "a" none overflowText Reachable.initial
    overflow_step, by decide, rfl, by decide, ?_⟩
  intro h
  obtain ⟨n, hn⟩ := h { date := JSInt.nan, value := JSFloat.lit false 1 0 } (by decide)
  cases hn

/-- C18, amended: in every store that the operations produce from the initial one, a table
with at least one metric comes with a starting date that is set. So `_addObservation`
always stores, at the end of the series of its metric and leaving the other series alone,
the date of the observation minus a starting date that is set; and `_updateMetric`, the
path that appends, leaves the starting date alone. The relative date stored is an integer
exactly when the date of the observation and the starting date are finite and their
difference is below `overflowThreshold` = 2^1024 - 2^970 in magnitude; in every other case
it is `NaN` or an infinity. In particular, when every timestamp read is finite and of
magnitude below half of that threshold, every stored relative date is an integer. -/
theorem origin_set_with_metrics (data : Data) :
    (Reachable data → (∃ metric, data.map.has metric = true) →
      ∃ d, data.starting_date = some d) ∧
    (Reachable data → ∀ metric o, ∃ data1 d,
      _addObservation data metric o = Except.ok data1 ∧ data1.starting_date = some d ∧
      getMetricData data1 metric =
        getMetricData data metric ++ [{ date := JSInt.sub o.date d, value := o.value }] ∧
      (∀ other, other ≠ metric → getMetricData data1 other = getMetricData data other) ∧
      ((∃ k, JSInt.sub o.date d = JSInt.fin k) ↔
        ∃ a b, o.date = JSInt.fin a ∧ d = JSInt.fin b ∧
          (a - b).natAbs < overflowThreshold) ∧
      ((¬ ∃ k, JSInt.sub o.date d = JSInt.fin k) →
        JSInt.sub o.date d = JSInt.nan ∨ ∃ neg, JSInt.sub o.date d = JSInt.inf neg)) ∧
    (∀ metric o data1, _updateMetric data metric o = Except.ok data1 →
      data1.starting_date = data.starting_date) ∧
    (ReachableSafe data → ∀ metric, ∀ o ∈ getMetricData data metric,
      ∃ n : Int, o.date = JSInt.fin n) := by
  refine ⟨?_, ?_, ?_, ?_⟩
  · rintro h ⟨metric, hm⟩
    apply reachable_originSet data h
    unfold SeriesTable.has at hm
    cases hg : data.map.get metric with
    | none => rw [hg] at hm; cases hm
    | some series => exact get_ne_nil _ _ _ hg
  · intro h metric o
    obtain ⟨data1, d, h1, hsd, -, -, hmap⟩ :=
      _addObservation_stores data metric o (reachable_originSet data h)
    refine ⟨data1, d, h1, hsd, ?_, ?_, (sub_fin_iff o.date d).1, (sub_fin_iff o.date d).2⟩
    · rw [getMetricData_eq data1, hmap, get_set, if_pos rfl]
      rfl
    · intro other ho
      rw [getMetricData_eq data1, getMetricData_eq data, hmap, get_set, if_neg ho]
  · intro metric o data1 h
    unfold _updateMetric at h
    cases hg : data.map.get metric with
    | none => rw [hg] at h; cases h
    | some series =>
      rw [hg] at h
      rw [← Except.ok.inj h]
  · intro h metric o ho
    rw [getMetricData_eq] at ho
    cases hg : data.map.get metric with
    | none => rw [hg] at ho; cases ho
    | some series =>
      rw [hg] at ho
      exact (reachableSafe_invariant data h).2.2 metric series o hg ho

theorem origin_set_with_metrics_witness :
    (Reachable demoData ∧ (∃ metric, demoData.map.has metric = true) ∧
        ∃ d, demoData.starting_date = some d) ∧
      (∃ data1 d,
        _addObservation demoData "cpu"
            { date := JSInt.fin 1002, value := JSFloat.lit false 9 (-1) } = Except.ok data1 ∧
          data1.starting_date = some d ∧
          getMetricData data1 "cpu" =
            getMetricData demoData "cpu" ++
              [{ date := JSInt.sub (JSInt.fin 1002) d, value := JSFloat.lit false 9 (-1) }]) ∧
      (_updateMetric demoData "cpu" { date := JSInt.fin 1002, value := JSFloat.lit false 9 (-1) } =
          Except.ok { demoData with
            map := [("cpu", demoSeries ++
              [{ date := JSInt.fin 2, value := JSFloat.lit false 9 (-1) }])] } ∧
        ({ demoData with
            map := [("cpu", demoSeries ++
              [{ date := JSInt.fin 2, value := JSFloat.lit false 9 (-1) }])] } :
          Data).starting_date = demoData.starting_date) ∧
      (ReachableSafe demoData ∧
        ∀ o ∈ getMetricData demoData "cpu", ∃ n : Int, o.date = JSInt.fin n) := by
  refine ⟨⟨demoData_reachable, ⟨"cpu", by decide⟩,
      (origin_set_with_metrics demoData).1 demoData_reachable ⟨"cpu", by decide⟩⟩,
    ?_,
    ⟨by decide,
      (origin_set_with_metrics demoData).2.2.1 "cpu"
        { date := JSInt.fin 1002, value := JSFloat.lit false 9 (-1) } _ (by decide)⟩,
    ⟨demoData_reachableSafe,
      (origin_set_with_metrics demoData).2.2.2 demoData_reachableSafe "cpu"⟩⟩
  obtain ⟨data1, d, h1, h2, h3, -⟩ := (origin_set_with_metrics demoData).2.1
    demoData_reachable "cpu" { date := JSInt.fin 1002, value := JSFloat.lit false 9 (-1) }
  exact ⟨data1, d, h1, h2, h3⟩

/-- C19: after `updateMetricData` for metric `m` with the current guid, the series of `m`
is longer by the number of lines of the text that yield an observation; when no line
yields one, as for the empty text, the store is the one before, and no series is made
for `m`. -/
theorem series_length_grows (data : Data) (metric : String) (rawData : String) :
    (∃ data1, updateMetricData data metric data.guid rawData = Except.ok data1 ∧
      (getMetricData data1 metric).length =
        (getMetricData data metric).length +
          (yieldingLines (split '\n' rawData.toList)).length ∧
      (yieldingLines (split '\n' rawData.toList) = [] → data1 = data)) ∧
    updateMetricData data metric data.guid "" = Except.ok data := by
  constructor
  · unfold updateMetricData _updateData
    rw [if_pos rfl]
    obtain ⟨data1, added, h1, h2, h3, -, h5⟩ :=
      forEachUpdate_series metric (split '\n' rawData.toList) data
    refine ⟨data1, h1, ?_, h5⟩
    rw [h2, List.length_append, h3]
  · unfold updateMetricData _updateData
    rw [if_pos rfl]
    have hs : split '\n' "".toList = [[]] := by decide
    have hp : parseLine [] = none := by decide
    rw [hs, forEachUpdate_skip _ _ _ _ hp]
    rfl

theorem series_length_grows_witness :
    yieldingLines (split '\n' "abc\t1\n\nxyz".toList) = [] ∧
      updateMetricData demoData "cpu" demoData.guid "abc\t1\n\nxyz" = Except.ok demoData := by
  have hy : yieldingLines (split '\n' "abc\t1\n\nxyz".toList) = [] := by decide
  obtain ⟨data1, h1, -, h3⟩ := (series_length_grows demoData "cpu" "abc\t1\n\nxyz").1
  rw [h3 hy] at h1
  exact ⟨hy, h1⟩

/-- C20, evaluated where the code departs from it: with the starting date 0 after the
line `0\t1` for metric `a`, the line `5\t1` for the new metric `b` moves the starting date
to 5, and the later line `3\t1` for `a` is stored with the relative date 3 - 5 = -2. The
timestamps 0 and 3 of `a` do not decrease, yet `getMetricMaxDate` of `a` is -2, below the
relative date 0 of its first element. -/
theorem last_date_below_first :
    ((updateMetricData zeroOriginData "b" (some "T") "5\t1").bind
        (fun data1 => updateMetricData data1 "a" (some "T") "3\t1")).map
        (fun data2 => (getMetricData data2 "a", getMetricMaxDate data2 "a")) =
      Except.ok
        ([{ date := JSInt.fin 0, value := JSFloat.lit false 1 0 },
          { date := JSInt.fin (-2), value := JSFloat.lit false 1 0 }],
         Except.ok (JSInt.fin (-2))) := by
  decide

end MetricsStore
